import Mathlib

/-!
Shallow embedding of the `sketch` subsystem of the truck-playground repository:
2D curve primitives (`Line2D`, `Arc2D`, `Circle2D`, `BSpline2D`), the `Curve2D`
variant, `Loop2D` validation and healing, the `SketchBuilder`, the `Plane` lift,
and the topology construction (`to_truck_wire`, `arc_to_nurbs`).

Machine floating-point (`f64`) arithmetic is embedded as exact real arithmetic;
`atan2` is embedded as `Complex.arg`, and the Rust `%` remainder as
truncated-division remainder.  Fallible constructors return `Except SketchError`.
-/

noncomputable section

namespace TruckPG

/-! ## Geometry scalars and vectors (from the cgmath types used by the source) -/

/-- Tau, the full turn, `std::f64::consts::TAU`. -/
def TAU : ℝ := 2 * Real.pi

structure Point2 where
  x : ℝ
  y : ℝ

structure Vector2 where
  x : ℝ
  y : ℝ

structure Point3 where
  x : ℝ
  y : ℝ
  z : ℝ

structure Vector3 where
  x : ℝ
  y : ℝ
  z : ℝ

instance : HSub Point2 Point2 Vector2 :=
  ⟨fun p q => ⟨p.x - q.x, p.y - q.y⟩⟩

instance : HAdd Point2 Vector2 Point2 :=
  ⟨fun p v => ⟨p.x + v.x, p.y + v.y⟩⟩

instance : HSub Point3 Point3 Vector3 :=
  ⟨fun p q => ⟨p.x - q.x, p.y - q.y, p.z - q.z⟩⟩

instance : HAdd Point3 Vector3 Point3 :=
  ⟨fun p v => ⟨p.x + v.x, p.y + v.y, p.z + v.z⟩⟩

instance : Add Vector3 :=
  ⟨fun u v => ⟨u.x + v.x, u.y + v.y, u.z + v.z⟩⟩

instance : SMul ℝ Vector3 :=
  ⟨fun a v => ⟨a * v.x, a * v.y, a * v.z⟩⟩

instance : SMul ℝ Vector2 :=
  ⟨fun a v => ⟨a * v.x, a * v.y⟩⟩

/-- `cgmath` vector magnitude: the Euclidean norm. -/
def Vector2.magnitude (v : Vector2) : ℝ := Real.sqrt (v.x ^ 2 + v.y ^ 2)

/-- `cgmath` vector magnitude: the Euclidean norm. -/
def Vector3.magnitude (v : Vector3) : ℝ := Real.sqrt (v.x ^ 2 + v.y ^ 2 + v.z ^ 2)

/-- `cgmath` `normalize`: divide by the magnitude. -/
def Vector3.normalize (v : Vector3) : Vector3 :=
  ⟨v.x / v.magnitude, v.y / v.magnitude, v.z / v.magnitude⟩

/-- `cgmath` cross product. -/
def Vector3.cross (u v : Vector3) : Vector3 :=
  ⟨u.y * v.z - u.z * v.y, u.z * v.x - u.x * v.z, u.x * v.y - u.y * v.x⟩

/-- `cgmath` dot product. -/
def Vector3.dot (u v : Vector3) : ℝ := u.x * v.x + u.y * v.y + u.z * v.z

/-- Truncation toward zero, the rounding used by Rust's `%` on `f64`. -/
def rtrunc (x : ℝ) : ℤ := if 0 ≤ x then ⌊x⌋ else ⌈x⌉

/-- Rust `x % y` on `f64`: remainder of truncated division. -/
def fmod (x y : ℝ) : ℝ := x - y * (rtrunc (x / y) : ℝ)

/-- Rust `f64::clamp(lo, hi)`. -/
def fclamp (x lo hi : ℝ) : ℝ := if x < lo then lo else if x > hi then hi else x

/-- Rust `f64::atan2`: `y.atan2 x` is the argument of the point `(x, y)`,
embedded as `Complex.arg` (range `(-π, π]`, and `atan2 0 0 = 0`). -/
def atan2 (y x : ℝ) : ℝ := Complex.arg ⟨x, y⟩

/-! ## Constants (src/sketch/constants.rs) -/

/-- Tolerance for point coincidence checks. -/
def POINT_TOLERANCE : ℝ := 1e-9

/-- Tolerance for angle comparisons. -/
def ANGLE_TOLERANCE : ℝ := 1e-10

/-- Tolerance for length/distance comparisons. -/
def LENGTH_TOLERANCE : ℝ := 1e-9

/-- Default gap healing tolerance. -/
def HEAL_TOLERANCE : ℝ := 1e-6

/-- Tolerance for considering a curve degenerate. -/
def DEGENERATE_TOLERANCE : ℝ := 1e-12

/-! ## Errors (src/sketch/error.rs) -/

inductive SketchError where
  | DegeneratePlane : SketchError
  | OpenLoop : ℕ → ℝ → SketchError
  | EmptyLoop : SketchError
  | DegenerateCurve : SketchError
  | InvalidArcRadius : ℝ → SketchError
  | ArcRadiusMismatch : ℝ → ℝ → SketchError
  | ZeroSweepAngle : SketchError
  | InvalidCircleRadius : ℝ → SketchError
  | CollinearPoints : SketchError
  | UnboundedSpline : SketchError
  | InsufficientControlPoints : ℕ → ℕ → ℕ → SketchError
  | NoStartingPoint : SketchError
  | CannotCloseEmpty : SketchError
  | TruckEdgeError : String → SketchError
  | TruckWireError : String → SketchError
  | TruckFaceError : String → SketchError

abbrev SketchResult (α : Type) := Except SketchError α

/-! ## Angle helpers (src/sketch/primitives/arc2d.rs) -/

/-- `normalize_angle`: reduce an angle into `[0, TAU)` using Rust `%` then a
conditional shift, exactly as in the source. -/
def normalize_angle (angle : ℝ) : ℝ :=
  let a := fmod angle TAU
  if a < 0 then a + TAU else a

/-- The CCW branch of `compute_sweep_angle`: `while sweep <= 0.0 { sweep += TAU }`. -/
def sweepLoopCcw (sweep : ℝ) : ℝ :=
  if h : sweep ≤ 0 then sweepLoopCcw (sweep + TAU) else sweep
termination_by (⌊-sweep / TAU⌋ + 1).toNat
decreasing_by
  have hpi : (0:ℝ) < TAU := by
    have := Real.pi_pos
    unfold TAU; linarith
  have h1 : -(sweep + TAU) / TAU = -sweep / TAU - 1 := by
    field_simp
    ring
  have h2 : ⌊-(sweep + TAU) / TAU⌋ = ⌊-sweep / TAU⌋ - 1 := by
    rw [h1, ← Int.floor_sub_int (-sweep / TAU) 1]
    norm_num
  have h3 : (0:ℤ) ≤ ⌊-sweep / TAU⌋ := by
    apply Int.floor_nonneg.mpr
    apply div_nonneg (by linarith) hpi.le
  rw [h2]
  omega

/-- The CW branch of `compute_sweep_angle`: `while sweep >= 0.0 { sweep -= TAU }`. -/
def sweepLoopCw (sweep : ℝ) : ℝ :=
  if h : 0 ≤ sweep then sweepLoopCw (sweep - TAU) else sweep
termination_by (⌈sweep / TAU⌉ + 1).toNat
decreasing_by
  have hpi : (0:ℝ) < TAU := by
    have := Real.pi_pos
    unfold TAU; linarith
  have h1 : (sweep - TAU) / TAU = sweep / TAU - 1 := by
    field_simp
  have h2 : ⌈(sweep - TAU) / TAU⌉ = ⌈sweep / TAU⌉ - 1 := by
    rw [h1, ← Int.ceil_sub_int (sweep / TAU) 1]
    norm_num
  have h3 : (0:ℤ) ≤ ⌈sweep / TAU⌉ := by
    apply Int.ceil_nonneg
    positivity
  rw [h2]
  omega

/-- `compute_sweep_angle`: signed sweep from `start` to `ed`, adding or
subtracting full turns until the sweep has the requested sign. -/
def compute_sweep_angle (start ed : ℝ) (ccw : Bool) : ℝ :=
  if ccw then sweepLoopCcw (ed - start) else sweepLoopCw (ed - start)

/-- `compute_sweep_through_mid`: select the sweep direction for a three-point
arc by comparing CCW angular distances. -/
def compute_sweep_through_mid (start mid ed : ℝ) : ℝ :=
  let s := normalize_angle start
  let m := normalize_angle mid
  let e := normalize_angle ed
  let s_to_m_ccw := if m ≥ s then m - s else m - s + TAU
  let s_to_e_ccw := if e ≥ s then e - s else e - s + TAU
  if s_to_m_ccw < s_to_e_ccw then s_to_e_ccw else s_to_e_ccw - TAU

/-- `circumcenter` (src/sketch/primitives/arc2d.rs): closed-form 2x2 solve with
a determinant guard against collinear points. -/
def circumcenter (p1 p2 p3 : Point2) : SketchResult Point2 :=
  let d := 2 * (p1.x * (p2.y - p3.y) + p2.x * (p3.y - p1.y) + p3.x * (p1.y - p2.y))
  if |d| < DEGENERATE_TOLERANCE then .error .CollinearPoints
  else
    let p1_sq := p1.x * p1.x + p1.y * p1.y
    let p2_sq := p2.x * p2.x + p2.y * p2.y
    let p3_sq := p3.x * p3.x + p3.y * p3.y
    let ux := (p1_sq * (p2.y - p3.y) + p2_sq * (p3.y - p1.y) + p3_sq * (p1.y - p2.y)) / d
    let uy := (p1_sq * (p3.x - p2.x) + p2_sq * (p1.x - p3.x) + p3_sq * (p2.x - p1.x)) / d
    .ok ⟨ux, uy⟩

/-! ## Line2D (src/sketch/primitives/line2d.rs) -/

structure Line2D where
  start : Point2
  ed : Point2

def Line2D.start_pt (l : Line2D) : Point2 := l.start

def Line2D.end_pt (l : Line2D) : Point2 := l.ed

def Line2D.length (l : Line2D) : ℝ := (l.ed - l.start).magnitude

def Line2D.point_at (l : Line2D) (t : ℝ) : Point2 :=
  ⟨l.start.x + t * (l.ed.x - l.start.x), l.start.y + t * (l.ed.y - l.start.y)⟩

def Line2D.tangent_at (l : Line2D) (_t : ℝ) : Vector2 := l.ed - l.start

def Line2D.reversed (l : Line2D) : Line2D := ⟨l.ed, l.start⟩

/-- `is_degenerate` default: `length() < tol`. -/
def Line2D.is_degenerate (l : Line2D) (tol : ℝ) : Prop := l.length < tol

/-- `Line2D::new` validates against the degenerate tolerance. -/
def Line2D.new (start ed : Point2) : SketchResult Line2D :=
  let line : Line2D := ⟨start, ed⟩
  if line.length < DEGENERATE_TOLERANCE then .error .DegenerateCurve else .ok line

/-- `Line2D::new_unchecked`. -/
def Line2D.new_unchecked (start ed : Point2) : Line2D := ⟨start, ed⟩

/-- `Line2D::set_start` (for gap healing). -/
def Line2D.set_start (l : Line2D) (p : Point2) : Line2D := ⟨p, l.ed⟩

/-! ## Arc2D (src/sketch/primitives/arc2d.rs) -/

structure Arc2D where
  center : Point2
  radius : ℝ
  start_angle : ℝ
  sweep_angle : ℝ

/-- `Arc2D::new`: validate radius and non-zero sweep, clamp sweep to `[-TAU, TAU]`,
normalize the start angle. -/
def Arc2D.new (center : Point2) (radius start_angle sweep_angle : ℝ) : SketchResult Arc2D :=
  if radius ≤ DEGENERATE_TOLERANCE then .error (.InvalidArcRadius radius)
  else if |sweep_angle| < ANGLE_TOLERANCE then .error .ZeroSweepAngle
  else
    let clamped_sweep := fclamp sweep_angle (-TAU) TAU
    .ok ⟨center, radius, normalize_angle start_angle, clamped_sweep⟩

/-- `Arc2D::from_start_end_center`. -/
def Arc2D.from_start_end_center (start ed center : Point2) (ccw : Bool) : SketchResult Arc2D :=
  let r1 := (start - center).magnitude
  let r2 := (ed - center).magnitude
  if |r1 - r2| > LENGTH_TOLERANCE * max (max r1 r2) 1 then .error (.ArcRadiusMismatch r1 r2)
  else
    let radius := (r1 + r2) / 2
    if radius ≤ DEGENERATE_TOLERANCE then .error (.InvalidArcRadius radius)
    else
      let start_angle := atan2 (start.y - center.y) (start.x - center.x)
      let end_angle := atan2 (ed.y - center.y) (ed.x - center.x)
      let sweep_angle := compute_sweep_angle start_angle end_angle ccw
      Arc2D.new center radius start_angle sweep_angle

/-- `Arc2D::from_three_points`. -/
def Arc2D.from_three_points (start mid ed : Point2) : SketchResult Arc2D := do
  let center ← circumcenter start mid ed
  let radius := (start - center).magnitude
  let start_angle := atan2 (start.y - center.y) (start.x - center.x)
  let mid_angle := atan2 (mid.y - center.y) (mid.x - center.x)
  let end_angle := atan2 (ed.y - center.y) (ed.x - center.x)
  let sweep_angle := compute_sweep_through_mid start_angle mid_angle end_angle
  Arc2D.new center radius start_angle sweep_angle

def Arc2D.end_angle (a : Arc2D) : ℝ := a.start_angle + a.sweep_angle

def Arc2D.is_ccw (a : Arc2D) : Prop := a.sweep_angle > 0

/-- Angle at parameter `t ∈ [0, 1]`. -/
def Arc2D.angle_at (a : Arc2D) (t : ℝ) : ℝ := a.start_angle + t * a.sweep_angle

def Arc2D.start_pt (a : Arc2D) : Point2 :=
  ⟨a.center.x + a.radius * Real.cos a.start_angle,
   a.center.y + a.radius * Real.sin a.start_angle⟩

def Arc2D.end_pt (a : Arc2D) : Point2 :=
  ⟨a.center.x + a.radius * Real.cos (a.start_angle + a.sweep_angle),
   a.center.y + a.radius * Real.sin (a.start_angle + a.sweep_angle)⟩

def Arc2D.point_at (a : Arc2D) (t : ℝ) : Point2 :=
  ⟨a.center.x + a.radius * Real.cos (a.angle_at t),
   a.center.y + a.radius * Real.sin (a.angle_at t)⟩

def Arc2D.length (a : Arc2D) : ℝ := a.radius * |a.sweep_angle|

def Arc2D.reversed (a : Arc2D) : Arc2D :=
  ⟨a.center, a.radius, normalize_angle (a.start_angle + a.sweep_angle), -a.sweep_angle⟩

/-! ## Circle2D (src/sketch/primitives/circle2d.rs) -/

structure Circle2D where
  center : Point2
  radius : ℝ
  seam_angle : ℝ
  ccw : Bool

/-- `Circle2D::with_seam`. -/
def Circle2D.with_seam (center : Point2) (radius seam_angle : ℝ) (ccw : Bool) :
    SketchResult Circle2D :=
  if radius ≤ DEGENERATE_TOLERANCE then .error (.InvalidCircleRadius radius)
  else .ok ⟨center, radius, seam_angle, ccw⟩

/-- `Circle2D::new`. -/
def Circle2D.new (center : Point2) (radius : ℝ) : SketchResult Circle2D :=
  Circle2D.with_seam center radius 0 true

def Circle2D.point_at_angle (c : Circle2D) (angle : ℝ) : Point2 :=
  ⟨c.center.x + c.radius * Real.cos angle, c.center.y + c.radius * Real.sin angle⟩

def Circle2D.start_pt (c : Circle2D) : Point2 := c.point_at_angle c.seam_angle

def Circle2D.end_pt (c : Circle2D) : Point2 := c.start_pt

def Circle2D.point_at (c : Circle2D) (t : ℝ) : Point2 :=
  let sweep := if c.ccw then TAU else -TAU
  c.point_at_angle (c.seam_angle + t * sweep)

def Circle2D.length (c : Circle2D) : ℝ := TAU * c.radius

def Circle2D.reversed (c : Circle2D) : Circle2D := ⟨c.center, c.radius, c.seam_angle, !c.ccw⟩

def Circle2D.is_ccw (c : Circle2D) : Bool := c.ccw

/-! ## BSpline2D (src/sketch/primitives/bspline2d.rs)

The underlying `truck` `BSplineCurve` is its knot vector plus control points. -/

structure BSpline2D where
  knots : List ℝ
  control_points : List Point2

/-- Modelled from the spec: the external kernel's `KnotVec::uniform_knot(n, degree)`
("knot vector generated uniformly"): a clamped uniform knot vector on `[0, 1]`
for `n` control points of the given degree. -/
def uniform_knot (n degree : ℕ) : List ℝ :=
  (List.range (n + degree + 1)).map
    (fun i => fclamp (((i : ℝ) - degree) / ((n : ℝ) - degree)) 0 1)

/-- `BSpline2D::from_control_points`. -/
def BSpline2D.from_control_points (points : List Point2) (degree : ℕ) :
    SketchResult BSpline2D :=
  let n := points.length
  let min_points := degree + 1
  if n < min_points then .error (.InsufficientControlPoints min_points degree n)
  else .ok ⟨uniform_knot n degree, points⟩

/-- `BSpline2D::interpolate` (best-effort approximation, uses the points as
control points). -/
def BSpline2D.interpolate (points : List Point2) (degree : ℕ) : SketchResult BSpline2D :=
  if points.length < 2 then .error (.InsufficientControlPoints 2 degree points.length)
  else BSpline2D.from_control_points points (min degree (points.length - 1))

/-- Degree of a `truck` B-spline: knot count minus control-point count minus 1. -/
def BSpline2D.degree (s : BSpline2D) : ℕ := s.knots.length - s.control_points.length - 1

/-- Modelled from the spec: the external kernel's B-spline basis `N_{i,p}(t)`
(Cox-de Boor recursion, `0/0 = 0` convention, last knot span right-closed so
that a clamped curve attains its last control point). -/
def bsplineBasis (ks : List ℝ) : ℕ → ℕ → ℝ → ℝ
  | 0, i, t =>
      if (ks.getD i 0 ≤ t ∧ t < ks.getD (i + 1) 0) ∨
         (ks.getD i 0 < ks.getD (i + 1) 0 ∧ t = ks.getD (i + 1) 0 ∧
          ks.getD (i + 1) 0 = ks.getD (ks.length - 1) 0) then 1 else 0
  | p + 1, i, t =>
      (t - ks.getD i 0) / (ks.getD (i + p + 1) 0 - ks.getD i 0) * bsplineBasis ks p i t +
      (ks.getD (i + p + 2) 0 - t) / (ks.getD (i + p + 2) 0 - ks.getD (i + 1) 0) *
        bsplineBasis ks p (i + 1) t

/-- Modelled from the spec: evaluation of the external kernel's polynomial
B-spline curve in the plane (`subs` at a raw parameter). -/
def bsplineSubs2 (knots : List ℝ) (cps : List Point2) (t : ℝ) : Point2 :=
  let p := knots.length - cps.length - 1
  ⟨∑ i ∈ Finset.range cps.length, bsplineBasis knots p i t * (cps.getD i ⟨0, 0⟩).x,
   ∑ i ∈ Finset.range cps.length, bsplineBasis knots p i t * (cps.getD i ⟨0, 0⟩).y⟩

/-- `parameter_range` of the external B-spline: the first and last knots. -/
def BSpline2D.param_range (s : BSpline2D) : ℝ × ℝ := (s.knots.headD 0, s.knots.getLastD 0)

def BSpline2D.start_pt (s : BSpline2D) : Point2 := bsplineSubs2 s.knots s.control_points s.param_range.1

def BSpline2D.end_pt (s : BSpline2D) : Point2 := bsplineSubs2 s.knots s.control_points s.param_range.2

def BSpline2D.point_at (s : BSpline2D) (t : ℝ) : Point2 :=
  bsplineSubs2 s.knots s.control_points (s.param_range.1 + t * (s.param_range.2 - s.param_range.1))

/-- `BSpline2D::length`: polyline approximation over 100 samples. -/
def BSpline2D.length (s : BSpline2D) : ℝ :=
  ∑ i ∈ Finset.range 100,
    ((s.point_at ((i + 1 : ℕ) / 100) - s.point_at ((i : ℕ) / 100)).magnitude)

/-- Modelled from the spec: the external kernel's `KnotVec::invert`, reflecting
the knot vector about its endpoints' midpoint. -/
def knotInvert (ks : List ℝ) : List ℝ :=
  match ks.head?, ks.getLast? with
  | some k0, some kn => ks.reverse.map (fun k => k0 + kn - k)
  | _, _ => ks

/-- `BSpline2D::reversed`: the external kernel's `invert` reverses the control
points and inverts the knot vector. -/
def BSpline2D.reversed (s : BSpline2D) : BSpline2D :=
  ⟨knotInvert s.knots, s.control_points.reverse⟩

/-! ## Curve2D variant (src/sketch/primitives/mod.rs) -/

inductive Curve2D where
  | Line : Line2D → Curve2D
  | Arc : Arc2D → Curve2D
  | Circle : Circle2D → Curve2D
  | BSpline : BSpline2D → Curve2D

def Curve2D.start_pt : Curve2D → Point2
  | .Line c => c.start_pt
  | .Arc c => c.start_pt
  | .Circle c => c.start_pt
  | .BSpline c => c.start_pt

def Curve2D.end_pt : Curve2D → Point2
  | .Line c => c.end_pt
  | .Arc c => c.end_pt
  | .Circle c => c.end_pt
  | .BSpline c => c.end_pt

def Curve2D.point_at : Curve2D → ℝ → Point2
  | .Line c, t => c.point_at t
  | .Arc c, t => c.point_at t
  | .Circle c, t => c.point_at t
  | .BSpline c, t => c.point_at t

def Curve2D.length : Curve2D → ℝ
  | .Line c => c.length
  | .Arc c => c.length
  | .Circle c => c.length
  | .BSpline c => c.length

def Curve2D.reversed : Curve2D → Curve2D
  | .Line c => .Line c.reversed
  | .Arc c => .Arc c.reversed
  | .Circle c => .Circle c.reversed
  | .BSpline c => .BSpline c.reversed

/-- Trait default `is_closed(tol)`: `impl SketchCurve2D for Curve2D` does not
override it, so every variant uses `(start() - end()).magnitude() < tol`. -/
def Curve2D.is_closed (c : Curve2D) (tol : ℝ) : Prop :=
  (c.start_pt - c.end_pt).magnitude < tol

instance (c : Curve2D) (tol : ℝ) : Decidable (c.is_closed tol) := by
  unfold Curve2D.is_closed
  infer_instance

/-- `Curve2D::set_start`: only a `Line` exposes a mutable start. -/
def Curve2D.set_start (c : Curve2D) (p : Point2) : Curve2D :=
  match c with
  | .Line l => .Line (l.set_start p)
  | c => c

/-- Placeholder curve used as the (never-relevant) default of in-range list
indexing. -/
def dummyCurve : Curve2D := .Line ⟨⟨0, 0⟩, ⟨0, 0⟩⟩

/-! ## Loop2D (src/sketch/loop2d.rs) -/

structure Loop2D where
  curves : List Curve2D

/-- The gap computed by the junction loops of `validate` and `heal_gaps`:
from curve `i`'s end to curve `(i+1) mod n`'s start. -/
def rawGap (cs : List Curve2D) (i : ℕ) : ℝ :=
  ((cs.getD i dummyCurve).end_pt -
    (cs.getD ((i + 1) % cs.length) dummyCurve).start_pt).magnitude

/-- Gap at junction `i`: from curve `i`'s end to curve `(i+1) mod n`'s start. -/
def Loop2D.junction_gap (l : Loop2D) (i : ℕ) : ℝ := rawGap l.curves i

/-- The `for i in 0..n` junction check of `Loop2D::validate`, starting at `i`. -/
def validateFrom (cs : List Curve2D) (tol : ℝ) (i : ℕ) : SketchResult Unit :=
  if _h : i < cs.length then
    if rawGap cs i > tol then .error (.OpenLoop i (rawGap cs i))
    else validateFrom cs tol (i + 1)
  else .ok ()
termination_by cs.length - i

/-- `Loop2D::validate`. -/
def Loop2D.validate (l : Loop2D) (tol : ℝ) : SketchResult Unit :=
  if l.curves.isEmpty then .error .EmptyLoop
  else if l.curves.length = 1 then
    let curve := l.curves.getD 0 dummyCurve
    let gap := (curve.start_pt - curve.end_pt).magnitude
    if gap > tol then .error (.OpenLoop 0 gap) else .ok ()
  else validateFrom l.curves tol 0

/-- `Loop2D::new` (validates closure at the heal tolerance). -/
def Loop2D.new (curves : List Curve2D) : SketchResult Loop2D :=
  let loop2d : Loop2D := ⟨curves⟩
  (loop2d.validate HEAL_TOLERANCE).map fun _ => loop2d

/-- `Loop2D::from_closed_curve`. -/
def Loop2D.from_closed_curve (curve : Curve2D) : SketchResult Loop2D :=
  if curve.is_closed POINT_TOLERANCE then .ok ⟨[curve]⟩
  else .error (.OpenLoop 0 ((curve.end_pt - curve.start_pt).magnitude))

/-- The `for i in 0..n` pass of `Loop2D::heal_gaps`, carrying the mutated curve
list and the healed counter. -/
def healFrom (tol : ℝ) (cs : List Curve2D) (i healed : ℕ) : List Curve2D × ℕ :=
  if _h : i < cs.length then
    if rawGap cs i > POINT_TOLERANCE ∧ rawGap cs i ≤ tol then
      healFrom tol
        (cs.set ((i + 1) % cs.length)
          ((cs.getD ((i + 1) % cs.length) dummyCurve).set_start
            ((cs.getD i dummyCurve).end_pt)))
        (i + 1) (healed + 1)
    else healFrom tol cs (i + 1) healed
  else (cs, healed)
termination_by cs.length - i
decreasing_by
  all_goals simp_all [List.length_set]
  all_goals omega

/-- `Loop2D::heal_gaps`: returns the healed loop and the healed-junction count. -/
def Loop2D.heal_gaps (l : Loop2D) (tol : ℝ) : Loop2D × ℕ :=
  if l.curves.length < 2 then (l, 0)
  else
    let r := healFrom tol l.curves 0 0
    (⟨r.1⟩, r.2)

/-- `Loop2D::total_length`. -/
def Loop2D.total_length (l : Loop2D) : ℝ := (l.curves.map Curve2D.length).sum

/-! ## SketchBuilder (src/sketch/builder.rs) -/

structure SketchBuilder where
  curves : List Curve2D
  current_pos : Option Point2
  start_pos : Option Point2

/-- `SketchBuilder::new`. -/
def SketchBuilder.mk_new : SketchBuilder := ⟨[], none, none⟩

/-- `SketchBuilder::move_to`. -/
def SketchBuilder.move_to (b : SketchBuilder) (pt : Point2) : SketchBuilder :=
  { b with
    current_pos := some pt
    start_pos := if b.start_pos.isNone then some pt else b.start_pos }

/-- `SketchBuilder::line_to`. -/
def SketchBuilder.line_to (b : SketchBuilder) (pt : Point2) : SketchResult SketchBuilder :=
  match b.current_pos with
  | none => .error .NoStartingPoint
  | some start => do
    let line ← Line2D.new start pt
    .ok { b with curves := b.curves ++ [.Line line], current_pos := some pt }

/-- `SketchBuilder::arc_to`. -/
def SketchBuilder.arc_to (b : SketchBuilder) (ed center : Point2) (ccw : Bool) :
    SketchResult SketchBuilder :=
  match b.current_pos with
  | none => .error .NoStartingPoint
  | some start => do
    let arc ← Arc2D.from_start_end_center start ed center ccw
    .ok { b with curves := b.curves ++ [.Arc arc], current_pos := some ed }

/-- `SketchBuilder::close`: append a closing line only when the gap from the
current position back to the start exceeds the point tolerance, then build and
validate a `Loop2D`. -/
def SketchBuilder.close (b : SketchBuilder) : SketchResult Loop2D :=
  if b.curves.isEmpty then .error .CannotCloseEmpty
  else
    match b.start_pos with
    | none => .error .NoStartingPoint
    | some start =>
      match b.current_pos with
      | none => .error .NoStartingPoint
      | some current =>
        let gap := (current - start).magnitude
        let curves :=
          if gap > POINT_TOLERANCE then b.curves ++ [.Line (Line2D.new_unchecked current start)]
          else b.curves
        Loop2D.new curves

/-! ## Plane (src/sketch/plane.rs) -/

structure Plane where
  origin : Point3
  x_dir : Vector3
  y_dir : Vector3

/-- `Plane::new`: reject near-collinear directions, store both normalized. -/
def Plane.new (origin : Point3) (x_dir y_dir : Vector3) : SketchResult Plane :=
  let normal := x_dir.cross y_dir
  if normal.magnitude < DEGENERATE_TOLERANCE then .error .DegeneratePlane
  else .ok ⟨origin, x_dir.normalize, y_dir.normalize⟩

/-- `Plane::xy`. -/
def Plane.xy : Plane := ⟨⟨0, 0, 0⟩, ⟨1, 0, 0⟩, ⟨0, 1, 0⟩⟩

/-- `Plane::normal`. -/
def Plane.normal (p : Plane) : Vector3 := (p.x_dir.cross p.y_dir).normalize

/-- `Plane::lift_point`. -/
def Plane.lift_point (p : Plane) (q : Point2) : Point3 :=
  p.origin + (q.x • p.x_dir + q.y • p.y_dir)

/-! ## Topology construction (src/sketch/topology.rs)

The external solid kernel's `Vertex`/`Edge` types are modelled as data: a vertex
is a fresh identifier plus its 3D point (each `builder::vertex` call allocates a
fresh identifier; here the allocation order is the identifier), an edge records
its two vertices and its 3D curve, and `Edge::try_new` fails exactly when both
vertices are the same entity. -/

structure Vertex where
  id : ℕ
  point : Point3

structure NurbsData where
  knots : List ℝ
  control_points : List (ℝ × ℝ × ℝ × ℝ)

inductive TruckCurve where
  | Line : Point3 → Point3 → TruckCurve
  | NurbsCurve : NurbsData → TruckCurve
  | BSplineCurve : List ℝ → List Point3 → TruckCurve

structure Edge where
  front : Vertex
  back : Vertex
  curve : TruckCurve

/-- Modelled from the spec: the external kernel's `Edge::try_new` builds an edge
from two vertices and an explicit 3D curve, failing when handed one vertex
twice. -/
def Edge.try_new (v0 v1 : Vertex) (c : TruckCurve) : Except String Edge :=
  if v0.id = v1.id then .error "same vertex" else .ok ⟨v0, v1, c⟩

/-- Modelled from the spec: the external kernel's `builder::line` between two
vertices. -/
def builderLine (v0 v1 : Vertex) : Edge := ⟨v0, v1, .Line v0.point v1.point⟩

/-- `arc_to_nurbs` (src/sketch/topology.rs): rational B-spline data for a
circular arc, split into at-most-90-degree segments with per-segment weight
`cos(|segment_angle| / 2)`. -/
def arc_to_nurbs (center : Point3) (normal : Vector3) (start : Point3)
    (sweep_angle : ℝ) : SketchResult NurbsData :=
  let radius := (start - center).magnitude
  let x_axis := (start - center).normalize
  let y_axis := (normal.cross x_axis).normalize
  let n_segments := max (⌈|sweep_angle| / (Real.pi / 2)⌉.toNat) 1
  let segment_angle := sweep_angle / n_segments
  let w1 := Real.cos (|segment_angle| / 2)
  let seg_pt : ℝ → Point3 := fun θ =>
    center + (radius • (Real.cos θ • x_axis + Real.sin θ • y_axis))
  let first := seg_pt 0
  let control_points :=
    (first.x, first.y, first.z, (1 : ℝ)) ::
      (List.range n_segments).flatMap (fun i =>
        let theta0 := (i : ℝ) * segment_angle
        let theta1 := ((i : ℝ) + 1) * segment_angle
        let theta_mid := (theta0 + theta1) / 2
        let p2 := seg_pt theta1
        let r_mid := radius / w1
        let p1 := center + (r_mid • (Real.cos theta_mid • x_axis + Real.sin theta_mid • y_axis))
        [(p1.x * w1, p1.y * w1, p1.z * w1, w1), (p2.x, p2.y, p2.z, (1 : ℝ))])
  let knots :=
    [0, 0, 0] ++
      (List.range n_segments).flatMap (fun i =>
        let knot_val := ((i : ℝ) + 1) / n_segments
        [knot_val, knot_val]) ++ [1]
  .ok ⟨knots, control_points⟩

/-- Modelled from the spec: evaluation of the external kernel's rational
(NURBS) curve at a parameter — evaluate the homogeneous B-spline and divide by
the weight. -/
def NurbsData.eval (nd : NurbsData) (t : ℝ) : Point3 :=
  let p := nd.knots.length - nd.control_points.length - 1
  let cp : ℕ → ℝ × ℝ × ℝ × ℝ := fun i => nd.control_points.getD i (0, 0, 0, 0)
  let hx := ∑ i ∈ Finset.range nd.control_points.length, bsplineBasis nd.knots p i t * (cp i).1
  let hy := ∑ i ∈ Finset.range nd.control_points.length, bsplineBasis nd.knots p i t * (cp i).2.1
  let hz := ∑ i ∈ Finset.range nd.control_points.length, bsplineBasis nd.knots p i t * (cp i).2.2.1
  let hw := ∑ i ∈ Finset.range nd.control_points.length, bsplineBasis nd.knots p i t * (cp i).2.2.2
  ⟨hx / hw, hy / hw, hz / hw⟩

/-- `line_to_edge_with_vertices`. -/
def line_to_edge_with_vertices (_line : Line2D) (_plane : Plane) (v0 v1 : Vertex) :
    SketchResult Edge :=
  .ok (builderLine v0 v1)

/-- `arc_to_edge_with_vertices`. -/
def arc_to_edge_with_vertices (arc : Arc2D) (plane : Plane) (v0 v1 : Vertex) :
    SketchResult Edge := do
  let start3d := plane.lift_point arc.start_pt
  let center3d := plane.lift_point arc.center
  let normal := plane.normal
  let nurbs ← arc_to_nurbs center3d normal start3d arc.sweep_angle
  match Edge.try_new v0 v1 (.NurbsCurve nurbs) with
  | .ok e => .ok e
  | .error msg => .error (.TruckEdgeError msg)

/-- `bspline_to_edge_with_vertices`: lift the control polygon, regenerate a
uniform knot vector of the same degree. -/
def bspline_to_edge_with_vertices (spline : BSpline2D) (plane : Plane) (v0 v1 : Vertex) :
    SketchResult Edge :=
  let lifted_pts := spline.control_points.map plane.lift_point
  let degree := spline.degree
  let n := lifted_pts.length
  let knots := uniform_knot n degree
  match Edge.try_new v0 v1 (.BSplineCurve knots lifted_pts) with
  | .ok e => .ok e
  | .error msg => .error (.TruckEdgeError msg)

/-- `curve_to_edge_with_vertices`: a full circle may not be a member of a
multi-curve loop. -/
def curve_to_edge_with_vertices (curve : Curve2D) (plane : Plane) (v0 v1 : Vertex) :
    SketchResult Edge :=
  match curve with
  | .Line line => line_to_edge_with_vertices line plane v0 v1
  | .Arc arc => arc_to_edge_with_vertices arc plane v0 v1
  | .Circle _ => .error (.TruckEdgeError "Circle cannot be part of a multi-curve loop")
  | .BSpline spline => bspline_to_edge_with_vertices spline plane v0 v1

/-- `circle_to_wire`: split a sole full circle into two semicircular edges
sharing two vertices. -/
def circle_to_wire (circle : Circle2D) (plane : Plane) : SketchResult (List Edge) := do
  let center3d := plane.lift_point circle.center
  let start3d := plane.lift_point circle.start_pt
  let normal := plane.normal
  let radius := circle.radius
  let x_axis := (start3d - center3d).normalize
  let opposite3d := center3d + ((-radius) • x_axis)
  let v0 : Vertex := ⟨0, start3d⟩
  let v1 : Vertex := ⟨1, opposite3d⟩
  let half_sweep := if circle.is_ccw then Real.pi else -Real.pi
  let nurbs1 ← arc_to_nurbs center3d normal start3d half_sweep
  let edge1 ←
    match Edge.try_new v0 v1 (.NurbsCurve nurbs1) with
    | .ok e => (.ok e : SketchResult Edge)
    | .error msg => .error (.TruckEdgeError msg)
  let nurbs2 ← arc_to_nurbs center3d normal opposite3d half_sweep
  let edge2 ←
    match Edge.try_new v1 v0 (.NurbsCurve nurbs2) with
    | .ok e => (.ok e : SketchResult Edge)
    | .error msg => .error (.TruckEdgeError msg)
  .ok [edge1, edge2]

/-- The edge-building `for i in 0..n` loop of `to_truck_wire`, from index `i`. -/
def buildEdges (plane : Plane) (cs : List Curve2D) (vs : List Vertex) (i : ℕ) :
    SketchResult (List Edge) :=
  if _h : i < cs.length then do
    let e ← curve_to_edge_with_vertices (cs.getD i dummyCurve) plane
      (vs.getD i ⟨0, ⟨0, 0, 0⟩⟩) (vs.getD ((i + 1) % cs.length) ⟨0, ⟨0, 0, 0⟩⟩)
    let rest ← buildEdges plane cs vs (i + 1)
    .ok (e :: rest)
  else .ok []
termination_by cs.length - i

/-- `Loop2D::to_truck_wire`: a sole circle becomes two semicircular edges, any
other single curve is rejected as an open loop, and a multi-curve loop gets one
shared vertex per curve start and one edge per curve. -/
def Loop2D.to_truck_wire (l : Loop2D) (plane : Plane) : SketchResult (List Edge) :=
  let curves := l.curves
  if curves.isEmpty then .error .EmptyLoop
  else if curves.length = 1 then
    match curves.getD 0 dummyCurve with
    | .Circle circle => circle_to_wire circle plane
    | c => .error (.OpenLoop 0 ((c.end_pt - c.start_pt).magnitude))
  else
    let vertices := (List.range curves.length).map
      (fun i => (⟨i, plane.lift_point ((curves.getD i dummyCurve).start_pt)⟩ : Vertex))
    buildEdges plane curves vertices 0

/-- The documented field invariant of `Arc2D`: positive radius, start angle
normalized into `[0, TAU)`, sweep non-zero and of magnitude at most a full
turn. -/
def Arc2D.invariant (a : Arc2D) : Prop :=
  0 < a.radius ∧ 0 ≤ a.start_angle ∧ a.start_angle < TAU ∧
    0 < |a.sweep_angle| ∧ |a.sweep_angle| ≤ TAU

/-- Three points of the plane are collinear: the cross product of the two
spanned directions vanishes. -/
def collinearPts (p1 p2 p3 : Point2) : Prop :=
  (p2.x - p1.x) * (p3.y - p1.y) = (p3.x - p1.x) * (p2.y - p1.y)

/-- Index of the junction feeding curve `j` in a cyclic loop of `n` curves:
`j - 1`, wrapping to `n - 1` for `j = 0`. -/
def prevIdx (n j : ℕ) : ℕ := (j + n - 1) % n

/-- The value of curve `j` after one `heal_gaps` pass over `cs`: its start is
snapped to the previous curve's end exactly when the junction feeding it has a
gap in `(POINT_TOLERANCE, tol]` (a no-op unless the curve is a line). -/
def healedAt (cs : List Curve2D) (tol : ℝ) (j : ℕ) : Curve2D :=
  if rawGap cs (prevIdx cs.length j) > POINT_TOLERANCE ∧
      rawGap cs (prevIdx cs.length j) ≤ tol then
    (cs.getD j dummyCurve).set_start ((cs.getD (prevIdx cs.length j) dummyCurve).end_pt)
  else cs.getD j dummyCurve

/-! # Theorems -/

/-! ## Componentwise simp lemmas for the geometric operations -/

@[simp] theorem point2_sub_x (p q : Point2) : (p - q).x = p.x - q.x := rfl

@[simp] theorem point2_sub_y (p q : Point2) : (p - q).y = p.y - q.y := rfl

@[simp] theorem point2_add_x (p : Point2) (v : Vector2) : (p + v).x = p.x + v.x := rfl

@[simp] theorem point2_add_y (p : Point2) (v : Vector2) : (p + v).y = p.y + v.y := rfl

@[simp] theorem point3_sub_x (p q : Point3) : (p - q).x = p.x - q.x := rfl

@[simp] theorem point3_sub_y (p q : Point3) : (p - q).y = p.y - q.y := rfl

@[simp] theorem point3_sub_z (p q : Point3) : (p - q).z = p.z - q.z := rfl

@[simp] theorem point3_add_x (p : Point3) (v : Vector3) : (p + v).x = p.x + v.x := rfl

@[simp] theorem point3_add_y (p : Point3) (v : Vector3) : (p + v).y = p.y + v.y := rfl

@[simp] theorem point3_add_z (p : Point3) (v : Vector3) : (p + v).z = p.z + v.z := rfl

@[simp] theorem vec3_add_x (u v : Vector3) : (u + v).x = u.x + v.x := rfl

@[simp] theorem vec3_add_y (u v : Vector3) : (u + v).y = u.y + v.y := rfl

@[simp] theorem vec3_add_z (u v : Vector3) : (u + v).z = u.z + v.z := rfl

@[simp] theorem vec3_smul_x (a : ℝ) (v : Vector3) : (a • v).x = a * v.x := rfl

@[simp] theorem vec3_smul_y (a : ℝ) (v : Vector3) : (a • v).y = a * v.y := rfl

@[simp] theorem vec3_smul_z (a : ℝ) (v : Vector3) : (a • v).z = a * v.z := rfl

@[simp] theorem vec2_smul_x (a : ℝ) (v : Vector2) : (a • v).x = a * v.x := rfl

@[simp] theorem vec2_smul_y (a : ℝ) (v : Vector2) : (a • v).y = a * v.y := rfl

theorem TAU_pos : 0 < TAU := by
  have := Real.pi_pos
  unfold TAU
  linarith

theorem TAU_ne_zero : TAU ≠ 0 := ne_of_gt TAU_pos

/-- The magnitude of a 2D vector is zero iff the vector is zero. -/
theorem Vector2.magnitude_eq_zero {v : Vector2} : v.magnitude = 0 ↔ v.x = 0 ∧ v.y = 0 := by
  unfold Vector2.magnitude
  rw [Real.sqrt_eq_zero (by positivity)]
  constructor
  · intro h
    constructor <;> nlinarith [sq_nonneg v.x, sq_nonneg v.y]
  · rintro ⟨hx, hy⟩
    rw [hx, hy]
    ring

theorem Vector2.magnitude_nonneg (v : Vector2) : 0 ≤ v.magnitude := Real.sqrt_nonneg _

/-! ## Angle normalization -/

/-- `normalize_angle` in closed form: subtract the floored number of full
turns. -/
theorem normalize_angle_eq (x : ℝ) : normalize_angle x = x - TAU * ⌊x / TAU⌋ := by
  have hτ : (0:ℝ) < TAU := TAU_pos
  have hx : x = TAU * (x / TAU) := by field_simp
  set q := x / TAU with hq
  unfold normalize_angle fmod rtrunc
  by_cases h : 0 ≤ q
  · simp only [if_pos h]
    have hfr : 0 ≤ TAU * (q - ⌊q⌋) := by
      have := Int.fract_nonneg q
      have : 0 ≤ q - ⌊q⌋ := by
        have := Int.floor_le q
        linarith
      positivity
    have : ¬(x - TAU * ⌊q⌋ < 0) := by nlinarith
    simp only [this, if_neg, not_false_iff]
  · push_neg at h
    simp only [if_neg (not_le.mpr h)]
    by_cases hz : x - TAU * ⌈q⌉ < 0
    · simp only [if_pos hz]
      have hlt : q < ⌈q⌉ := by nlinarith
      have hfl : ⌊q⌋ = ⌈q⌉ - 1 := by
        rw [Int.floor_eq_iff]
        constructor
        · push_cast
          have := Int.ceil_lt_add_one q
          linarith
        · push_cast
          linarith
      rw [hfl]
      push_cast
      ring
    · simp only [if_neg hz]
      have hle : TAU * (q - ⌈q⌉) ≤ 0 := by
        have := Int.le_ceil q
        nlinarith
      have heq : q = (⌈q⌉ : ℝ) := by nlinarith
      have hfl : ⌊q⌋ = ⌈q⌉ := by
        conv_lhs => rw [heq]
        exact Int.floor_intCast _
      rw [hfl]

theorem normalize_angle_nonneg (x : ℝ) : 0 ≤ normalize_angle x := by
  rw [normalize_angle_eq]
  have h := Int.floor_le (x / TAU)
  have hτ : (0:ℝ) < TAU := TAU_pos
  have hx : x = TAU * (x / TAU) := by field_simp
  nlinarith

theorem normalize_angle_lt_tau (x : ℝ) : normalize_angle x < TAU := by
  rw [normalize_angle_eq]
  have h := Int.lt_floor_add_one (x / TAU)
  have hτ : (0:ℝ) < TAU := TAU_pos
  have hx : x = TAU * (x / TAU) := by field_simp
  nlinarith

/-- Normalization shifts by a whole number of turns, so cosine is unchanged
even with a further angular offset. -/
theorem cos_normalize_angle_add (x z : ℝ) :
    Real.cos (normalize_angle x + z) = Real.cos (x + z) := by
  rw [normalize_angle_eq]
  have : x - TAU * ⌊x / TAU⌋ + z = x + z - (⌊x / TAU⌋ : ℤ) * (2 * Real.pi) := by
    unfold TAU
    push_cast
    ring
  rw [this, Real.cos_sub_int_mul_two_pi]

theorem sin_normalize_angle_add (x z : ℝ) :
    Real.sin (normalize_angle x + z) = Real.sin (x + z) := by
  rw [normalize_angle_eq]
  have : x - TAU * ⌊x / TAU⌋ + z = x + z - (⌊x / TAU⌋ : ℤ) * (2 * Real.pi) := by
    unfold TAU
    push_cast
    ring
  rw [this, Real.sin_sub_int_mul_two_pi]

theorem cos_normalize_angle (x : ℝ) : Real.cos (normalize_angle x) = Real.cos x := by
  have := cos_normalize_angle_add x 0
  simpa using this

theorem sin_normalize_angle (x : ℝ) : Real.sin (normalize_angle x) = Real.sin x := by
  have := sin_normalize_angle_add x 0
  simpa using this

/-! ## Sweep-angle loop -/

/-- The CCW while-loop exits with a strictly positive sweep. -/
theorem sweepLoopCcw_pos (d : ℝ) : 0 < sweepLoopCcw d := by
  induction d using sweepLoopCcw.induct with
  | case1 d h ih =>
    rw [sweepLoopCcw, dif_pos h]
    exact ih
  | case2 d h =>
    rw [sweepLoopCcw, dif_neg h]
    exact lt_of_not_le h

/-- The CCW while-loop only adds whole turns. -/
theorem sweepLoopCcw_spec (d : ℝ) : ∃ k : ℕ, sweepLoopCcw d = d + k * TAU := by
  induction d using sweepLoopCcw.induct with
  | case1 d h ih =>
    rw [sweepLoopCcw, dif_pos h]
    obtain ⟨k, hk⟩ := ih
    exact ⟨k + 1, by rw [hk]; push_cast; ring⟩
  | case2 d h =>
    rw [sweepLoopCcw, dif_neg h]
    exact ⟨0, by push_cast; ring⟩

/-- The CCW while-loop result never exceeds `max d TAU`. -/
theorem sweepLoopCcw_le (d : ℝ) : sweepLoopCcw d ≤ max d TAU := by
  induction d using sweepLoopCcw.induct with
  | case1 d h ih =>
    rw [sweepLoopCcw, dif_pos h]
    refine ih.trans ?_
    have h1 : d + TAU ≤ TAU := by linarith
    rw [max_eq_right h1]
    exact le_max_right _ _
  | case2 d h =>
    rw [sweepLoopCcw, dif_neg h]
    exact le_max_left _ _

/-- The CW while-loop exits with a strictly negative sweep. -/
theorem sweepLoopCw_neg (d : ℝ) : sweepLoopCw d < 0 := by
  induction d using sweepLoopCw.induct with
  | case1 d h ih =>
    rw [sweepLoopCw, dif_pos h]
    exact ih
  | case2 d h =>
    rw [sweepLoopCw, dif_neg h]
    exact lt_of_not_le h

/-- The CW while-loop only subtracts whole turns. -/
theorem sweepLoopCw_spec (d : ℝ) : ∃ k : ℕ, sweepLoopCw d = d - k * TAU := by
  induction d using sweepLoopCw.induct with
  | case1 d h ih =>
    rw [sweepLoopCw, dif_pos h]
    obtain ⟨k, hk⟩ := ih
    exact ⟨k + 1, by rw [hk]; push_cast; ring⟩
  | case2 d h =>
    rw [sweepLoopCw, dif_neg h]
    exact ⟨0, by push_cast; ring⟩

/-- The CW while-loop result is at least `min d (-TAU)`. -/
theorem sweepLoopCw_ge (d : ℝ) : min d (-TAU) ≤ sweepLoopCw d := by
  induction d using sweepLoopCw.induct with
  | case1 d h ih =>
    rw [sweepLoopCw, dif_pos h]
    refine le_trans ?_ ih
    have h1 : -TAU ≤ d - TAU := by linarith
    rw [min_eq_right h1]
    exact min_le_right _ _
  | case2 d h =>
    rw [sweepLoopCw, dif_neg h]
    exact min_le_left _ _

/-! ## Clamp -/

theorem fclamp_eq_self {x lo hi : ℝ} (h1 : lo ≤ x) (h2 : x ≤ hi) : fclamp x lo hi = x := by
  unfold fclamp
  rw [if_neg (not_lt.mpr h1), if_neg (not_lt.mpr h2)]

theorem fclamp_pos {x lo hi : ℝ} (hx : 0 < x) (hlo : lo < 0) (hhi : 0 < hi) :
    0 < fclamp x lo hi := by
  unfold fclamp
  split_ifs <;> linarith

theorem fclamp_neg {x lo hi : ℝ} (hx : x < 0) (hlo : lo < 0) (hhi : 0 < hi) :
    fclamp x lo hi < 0 := by
  unfold fclamp
  split_ifs <;> linarith

theorem abs_fclamp_tau_le (x : ℝ) : |fclamp x (-TAU) TAU| ≤ TAU := by
  have hτ := TAU_pos
  unfold fclamp
  split_ifs with h1 h2
  · rw [abs_neg, abs_of_pos hτ]
  · rw [abs_of_pos hτ]
  · exact abs_le.mpr ⟨not_lt.mp h1, not_lt.mp h2⟩

/-! ## atan2 -/

theorem atan2_le_pi (y x : ℝ) : atan2 y x ≤ Real.pi := Complex.arg_le_pi _

theorem neg_pi_lt_atan2 (y x : ℝ) : -Real.pi < atan2 y x := Complex.neg_pi_lt_arg _

/-- `cos (atan2 y x) = x / magnitude` for a non-zero vector. -/
theorem cos_atan2 {y x : ℝ} (h : ¬(x = 0 ∧ y = 0)) :
    Real.cos (atan2 y x) = x / (Vector2.magnitude ⟨x, y⟩) := by
  have hz : (⟨x, y⟩ : ℂ) ≠ 0 := by
    intro hc
    exact h ⟨congrArg Complex.re hc, congrArg Complex.im hc⟩
  unfold atan2
  rw [Complex.cos_arg hz]
  congr 1
  rw [Complex.abs_apply, Complex.normSq_mk]
  unfold Vector2.magnitude
  ring_nf

theorem sin_atan2 (y x : ℝ) :
    Real.sin (atan2 y x) = y / (Vector2.magnitude ⟨x, y⟩) := by
  unfold atan2
  rw [Complex.sin_arg]
  congr 1
  rw [Complex.abs_apply, Complex.normSq_mk]
  unfold Vector2.magnitude
  ring_nf

theorem normalize_angle_zero : normalize_angle 0 = 0 := by
  rw [normalize_angle_eq]
  rw [zero_div, Int.floor_zero]
  simp

/-! ## Arc2D constructor invariants -/

/-- A successful `Arc2D::new` establishes the field invariant. -/
theorem arc_new_invariant {c : Point2} {r θ s : ℝ} {a : Arc2D}
    (h : Arc2D.new c r θ s = .ok a) : a.invariant := by
  unfold Arc2D.new at h
  split_ifs at h with h1 h2
  simp only [Except.ok.injEq] at h
  subst h
  have hr : 0 < r := by
    rw [not_le] at h1
    have : (0:ℝ) < DEGENERATE_TOLERANCE := by norm_num [DEGENERATE_TOLERANCE]
    linarith
  have hs : ANGLE_TOLERANCE ≤ |s| := not_lt.mp h2
  have hs0 : 0 < |s| := lt_of_lt_of_le (by norm_num [ANGLE_TOLERANCE]) hs
  refine ⟨hr, normalize_angle_nonneg θ, normalize_angle_lt_tau θ, ?_, abs_fclamp_tau_le s⟩
  have hτ := TAU_pos
  unfold fclamp
  split_ifs with g1 g2
  · rw [abs_neg, abs_of_pos hτ]
    exact hτ
  · rw [abs_of_pos hτ]
    exact hτ
  · exact hs0

theorem except_bind_error {α β : Type} (e : SketchError) (f : α → SketchResult β) :
    ((Except.error e : SketchResult α) >>= f) = Except.error e := rfl

theorem except_bind_ok {α β : Type} (x : α) (f : α → SketchResult β) :
    ((Except.ok x : SketchResult α) >>= f) = f x := rfl

/-- A successful `Arc2D::from_start_end_center` establishes the field
invariant. -/
theorem arc_from_sec_invariant {s e c : Point2} {ccw : Bool} {a : Arc2D}
    (h : Arc2D.from_start_end_center s e c ccw = .ok a) : a.invariant := by
  simp only [Arc2D.from_start_end_center] at h
  split_ifs at h
  exact arc_new_invariant h

/-- A successful `Arc2D::from_three_points` establishes the field invariant. -/
theorem arc_from_three_invariant {p1 p2 p3 : Point2} {a : Arc2D}
    (h : Arc2D.from_three_points p1 p2 p3 = .ok a) : a.invariant := by
  unfold Arc2D.from_three_points at h
  cases hc : circumcenter p1 p2 p3 with
  | error err =>
    rw [hc, except_bind_error] at h
    exact absurd h (by simp)
  | ok center =>
    rw [hc, except_bind_ok] at h
    exact arc_new_invariant h

/-- `Arc2D::reversed` preserves the field invariant. -/
theorem arc_reversed_invariant {a : Arc2D} (h : a.invariant) : a.reversed.invariant := by
  obtain ⟨hr, _, _, hs, hsle⟩ := h
  exact ⟨hr, normalize_angle_nonneg _, normalize_angle_lt_tau _,
    by rwa [Arc2D.reversed, abs_neg], by rwa [Arc2D.reversed, abs_neg]⟩

/-- C3: every `Arc2D` produced by `new`, `from_start_end_center`,
`from_three_points` or `reversed` satisfies the field invariant
(`radius > 0`, `start_angle ∈ [0, 2π)`, `0 < |sweep_angle| ≤ 2π`), and a sweep
of `3π` is stored as exactly `2π` (clamped, not reduced modulo `2π`). -/
theorem C3_arc2d_invariant :
    (∀ (c : Point2) (r θ s : ℝ) (a : Arc2D), Arc2D.new c r θ s = .ok a → a.invariant) ∧
    (∀ (s e c : Point2) (ccw : Bool) (a : Arc2D),
      Arc2D.from_start_end_center s e c ccw = .ok a → a.invariant) ∧
    (∀ (p1 p2 p3 : Point2) (a : Arc2D),
      Arc2D.from_three_points p1 p2 p3 = .ok a → a.invariant) ∧
    (∀ a : Arc2D, a.invariant → a.reversed.invariant) ∧
    (∀ (c : Point2) (r θ : ℝ) (a : Arc2D),
      Arc2D.new c r θ (3 * Real.pi) = .ok a → a.sweep_angle = TAU) := by
  refine ⟨fun _ _ _ _ _ h => arc_new_invariant h,
    fun _ _ _ _ _ h => arc_from_sec_invariant h,
    fun _ _ _ _ h => arc_from_three_invariant h,
    fun _ h => arc_reversed_invariant h, ?_⟩
  intro c r θ a h
  unfold Arc2D.new at h
  split_ifs at h
  simp only [Except.ok.injEq] at h
  subst h
  show fclamp (3 * Real.pi) (-TAU) TAU = TAU
  have hπ := Real.pi_pos
  unfold fclamp TAU
  rw [if_neg (by linarith), if_pos (by linarith)]

/-- Witness for C3: `Arc2D::new` at center `(0,0)`, radius `1`, start angle `0`
and sweep `3π` succeeds and stores sweep exactly `2π`. -/
theorem C3_witness :
    ∃ a : Arc2D, Arc2D.new ⟨0, 0⟩ 1 0 (3 * Real.pi) = .ok a ∧
      a.invariant ∧ a.sweep_angle = TAU := by
  have hπ := Real.pi_gt_three
  have hok : Arc2D.new ⟨0, 0⟩ 1 0 (3 * Real.pi) =
      .ok ⟨⟨0, 0⟩, 1, normalize_angle 0, fclamp (3 * Real.pi) (-TAU) TAU⟩ := by
    unfold Arc2D.new
    rw [if_neg (by norm_num [DEGENERATE_TOLERANCE]),
      if_neg (by rw [abs_of_pos (by linarith)]; norm_num [ANGLE_TOLERANCE]; linarith)]
  exact ⟨_, hok, C3_arc2d_invariant.1 _ _ _ _ _ hok,
    C3_arc2d_invariant.2.2.2.2 _ _ _ _ hok⟩

/-! ## Collinear points -/

/-- C8: `Arc2D::from_three_points` on three collinear points returns the
`CollinearPoints` error (the determinant guard fires before any division). -/
theorem C8_collinear_rejected (p1 p2 p3 : Point2) (h : collinearPts p1 p2 p3) :
    Arc2D.from_three_points p1 p2 p3 = .error .CollinearPoints := by
  have hd : 2 * (p1.x * (p2.y - p3.y) + p2.x * (p3.y - p1.y) + p3.x * (p1.y - p2.y)) = 0 := by
    unfold collinearPts at h
    linear_combination 2 * h
  have hc : circumcenter p1 p2 p3 = .error .CollinearPoints := by
    unfold circumcenter
    rw [hd]
    norm_num [DEGENERATE_TOLERANCE]
  unfold Arc2D.from_three_points
  rw [hc]
  rfl

/-- Witness for C8: the collinear triple `(0,0)`, `(1,1)`, `(2,2)` is rejected
with the `CollinearPoints` error. -/
theorem C8_witness :
    collinearPts ⟨0, 0⟩ ⟨1, 1⟩ ⟨2, 2⟩ ∧
      Arc2D.from_three_points ⟨0, 0⟩ ⟨1, 1⟩ ⟨2, 2⟩ = .error .CollinearPoints := by
  have h : collinearPts ⟨0, 0⟩ ⟨1, 1⟩ ⟨2, 2⟩ := by
    unfold collinearPts
    norm_num
  exact ⟨h, C8_collinear_rejected _ _ _ h⟩

/-! ## Loop validation -/

theorem validateFrom_ok_iff (cs : List Curve2D) (tol : ℝ) :
    ∀ i, validateFrom cs tol i = .ok () ↔
      ∀ j, i ≤ j → j < cs.length → rawGap cs j ≤ tol := by
  suffices H : ∀ m i, cs.length - i = m →
      (validateFrom cs tol i = .ok () ↔ ∀ j, i ≤ j → j < cs.length → rawGap cs j ≤ tol) by
    intro i
    exact H (cs.length - i) i rfl
  intro m
  induction m with
  | zero =>
    intro i hi
    have hge : cs.length ≤ i := by omega
    rw [validateFrom, dif_neg (by omega)]
    simp only [true_iff]
    intro j hj hjn
    omega
  | succ m ih =>
    intro i hi
    have hlt : i < cs.length := by omega
    rw [validateFrom, dif_pos hlt]
    by_cases hg : rawGap cs i > tol
    · rw [if_pos hg]
      constructor
      · intro h
        exact absurd h (by simp)
      · intro h
        exact absurd (h i le_rfl hlt) (by linarith)
    · rw [if_neg hg]
      rw [ih (i + 1) (by omega)]
      constructor
      · intro h j hj hjn
        rcases Nat.eq_or_lt_of_le hj with rfl | hj1
        · exact not_lt.mp hg
        · exact h j hj1 hjn
      · intro h j hj hjn
        exact h j (by omega) hjn

theorem validateFrom_error_iff (cs : List Curve2D) (tol : ℝ) :
    ∀ i j g, validateFrom cs tol i = .error (.OpenLoop j g) ↔
      (i ≤ j ∧ j < cs.length ∧ tol < rawGap cs j ∧ g = rawGap cs j ∧
        ∀ k, i ≤ k → k < j → rawGap cs k ≤ tol) := by
  suffices H : ∀ m i, cs.length - i = m → ∀ j g,
      (validateFrom cs tol i = .error (.OpenLoop j g) ↔
        (i ≤ j ∧ j < cs.length ∧ tol < rawGap cs j ∧ g = rawGap cs j ∧
          ∀ k, i ≤ k → k < j → rawGap cs k ≤ tol)) by
    intro i
    exact H (cs.length - i) i rfl
  intro m
  induction m with
  | zero =>
    intro i hi j g
    rw [validateFrom, dif_neg (by omega)]
    constructor
    · intro h
      exact absurd h (by simp)
    · rintro ⟨h1, h2, -⟩
      omega
  | succ m ih =>
    intro i hi j g
    have hlt : i < cs.length := by omega
    rw [validateFrom, dif_pos hlt]
    by_cases hg : rawGap cs i > tol
    · rw [if_pos hg]
      constructor
      · intro h
        simp only [Except.error.injEq, SketchError.OpenLoop.injEq] at h
        obtain ⟨rfl, rfl⟩ := h
        exact ⟨le_rfl, hlt, hg, rfl, fun k hk1 hk2 => by omega⟩
      · rintro ⟨h1, h2, h3, rfl, h5⟩
        rcases Nat.eq_or_lt_of_le h1 with rfl | hj1
        · rfl
        · exact absurd (h5 i le_rfl hj1) (by linarith)
    · rw [if_neg hg]
      rw [ih (i + 1) (by omega)]
      constructor
      · rintro ⟨h1, h2, h3, rfl, h5⟩
        exact ⟨by omega, h2, h3, rfl, fun k hk1 hk2 => by
          rcases Nat.eq_or_lt_of_le hk1 with rfl | hk
          · exact not_lt.mp hg
          · exact h5 k hk hk2⟩
      · rintro ⟨h1, h2, h3, rfl, h5⟩
        refine ⟨?_, h2, h3, rfl, fun k hk1 hk2 => h5 k (by omega) hk2⟩
        rcases Nat.eq_or_lt_of_le h1 with rfl | hj1
        · exact absurd h3 (by linarith)
        · omega

/-- C4: `validate(tol)` returns `EmptyLoop` on an empty curve list; a
single-curve loop validates iff that curve's start-to-end gap is at most `tol`;
a multi-curve loop validates iff every junction gap (including the wrap from
last back to first) is at most `tol`, and any `OpenLoop` error carries the
smallest failing junction index together with its measured gap. -/
theorem C4_validate_spec (l : Loop2D) (tol : ℝ) :
    (l.curves = [] → l.validate tol = .error .EmptyLoop) ∧
    (∀ c, l.curves = [c] →
      (l.validate tol = .ok () ↔ (c.start_pt - c.end_pt).magnitude ≤ tol)) ∧
    (1 < l.curves.length →
      ((l.validate tol = .ok () ↔ ∀ i < l.curves.length, l.junction_gap i ≤ tol) ∧
        (∀ j g, l.validate tol = .error (.OpenLoop j g) →
          j < l.curves.length ∧ tol < l.junction_gap j ∧ g = l.junction_gap j ∧
            ∀ k < j, l.junction_gap k ≤ tol))) := by
  refine ⟨?_, ?_, ?_⟩
  · intro h
    unfold Loop2D.validate
    rw [if_pos (by simp [h])]
  · intro c h
    unfold Loop2D.validate
    rw [if_neg (by simp [h]), if_pos (by simp [h])]
    simp only [h, List.getD]
    constructor
    · intro hok
      by_contra hgt
      rw [if_pos (by simpa using not_le.mp hgt)] at hok
      exact absurd hok (by simp)
    · intro hle
      rw [if_neg (by simpa using not_lt.mpr hle)]
  · intro hn
    have h0 : ¬l.curves.isEmpty = true := by
      rw [List.isEmpty_iff]
      intro h
      rw [h] at hn
      simp at hn
    have h1 : ¬l.curves.length = 1 := by omega
    constructor
    · unfold Loop2D.validate
      rw [if_neg h0, if_neg h1, validateFrom_ok_iff]
      constructor
      · intro h i hi
        exact h i (Nat.zero_le i) hi
      · intro h j _ hj
        exact h j hj
    · intro j g herr
      unfold Loop2D.validate at herr
      rw [if_neg h0, if_neg h1, validateFrom_error_iff] at herr
      obtain ⟨-, h2, h3, h4, h5⟩ := herr
      exact ⟨h2, h3, h4, fun k hk => h5 k (Nat.zero_le k) hk⟩

/-- Witness for C4: the unit-square two-line open chain reports junction 0 as
the first failing junction, and a square loop of four lines validates. -/
theorem C4_witness :
    (Loop2D.validate ⟨[.Line ⟨⟨0, 0⟩, ⟨1, 0⟩⟩, .Line ⟨⟨1, 0⟩, ⟨0, 0⟩⟩]⟩ (1 / 2) = .ok () ↔
      ∀ i < 2, Loop2D.junction_gap ⟨[.Line ⟨⟨0, 0⟩, ⟨1, 0⟩⟩, .Line ⟨⟨1, 0⟩, ⟨0, 0⟩⟩]⟩ i ≤ 1 / 2) := by
  exact (C4_validate_spec ⟨[.Line ⟨⟨0, 0⟩, ⟨1, 0⟩⟩, .Line ⟨⟨1, 0⟩, ⟨0, 0⟩⟩]⟩ (1 / 2)).2.2
    (by norm_num) |>.1

/-! ## Gap healing -/

theorem set_start_end_pt (c : Curve2D) (p : Point2) : (c.set_start p).end_pt = c.end_pt := by
  cases c <;> rfl

theorem set_start_non_line (c : Curve2D) (p : Point2)
    (h : ∀ li : Line2D, c ≠ .Line li) : c.set_start p = c := by
  cases c with
  | Line li => exact absurd rfl (h li)
  | Arc a => rfl
  | Circle ci => rfl
  | BSpline s => rfl

theorem healedAt_end_pt (cs : List Curve2D) (tol : ℝ) (j : ℕ) :
    (healedAt cs tol j).end_pt = (cs.getD j dummyCurve).end_pt := by
  unfold healedAt
  split_ifs with h
  · exact set_start_end_pt _ _
  · rfl

theorem prevIdx_next {n i : ℕ} (hi : i < n) : prevIdx n ((i + 1) % n) = i := by
  unfold prevIdx
  rcases Nat.lt_or_ge (i + 1) n with h | h
  · rw [Nat.mod_eq_of_lt h]
    have he : i + 1 + n - 1 = i + n := by omega
    rw [he, Nat.add_mod_right]
    exact Nat.mod_eq_of_lt hi
  · have hin : i + 1 = n := by omega
    subst hin
    rw [Nat.mod_self]
    have he : 0 + (i + 1) - 1 = i := by omega
    rw [he, Nat.mod_eq_of_lt (by omega)]

theorem getD_set_self {cs : List Curve2D} {k : ℕ} (hk : k < cs.length) (v : Curve2D) :
    (cs.set k v).getD k dummyCurve = v := by
  simp [List.getD_eq_getElem?_getD, List.getElem?_set_self, hk]

theorem getD_set_ne {cs : List Curve2D} {k j : ℕ} (h : k ≠ j) (v : Curve2D) :
    (cs.set k v).getD j dummyCurve = cs.getD j dummyCurve := by
  simp [List.getD_eq_getElem?_getD, List.getElem?_set_ne h]

/-- The target set of the healing pass after processing junctions `0..i-1`:
curves `1..i`, together with curve `0` once the final (wrap-around) junction
`n - 1` has been processed. -/
def healedSet (n i j : ℕ) : Prop := (1 ≤ j ∧ j ≤ i) ∨ (j = 0 ∧ i = n)

/-- One full `heal_gaps` pass: starting from a state that coincides with the
original list except that curves in `healedSet n i` already carry their healed
value, the loop finishes the job and counts every junction whose original gap
lies in `(POINT_TOLERANCE, tol]`. -/
theorem healFrom_spec (cs : List Curve2D) (tol : ℝ) (hn : 2 ≤ cs.length) :
    ∀ m i healed cs', cs.length - i = m → i ≤ cs.length →
      cs'.length = cs.length →
      (∀ j, j < cs.length →
        (healedSet cs.length i j → cs'.getD j dummyCurve = healedAt cs tol j) ∧
        (¬healedSet cs.length i j → cs'.getD j dummyCurve = cs.getD j dummyCurve)) →
      (healFrom tol cs' i healed).1.length = cs.length ∧
      (∀ j, j < cs.length →
        (healFrom tol cs' i healed).1.getD j dummyCurve = healedAt cs tol j) ∧
      (healFrom tol cs' i healed).2 = healed +
        ((Finset.Ico i cs.length).filter
          (fun k => rawGap cs k > POINT_TOLERANCE ∧ rawGap cs k ≤ tol)).card := by
  intro m
  induction m with
  | zero =>
    intro i healed cs' hm hile hlen hinv
    have hieq : i = cs.length := by omega
    rw [healFrom, dif_neg (by omega)]
    refine ⟨hlen, ?_, ?_⟩
    · intro j hj
      refine (hinv j hj).1 ?_
      unfold healedSet
      rcases Nat.eq_zero_or_pos j with rfl | hj1
      · exact Or.inr ⟨rfl, hieq⟩
      · exact Or.inl ⟨hj1, by omega⟩
    · rw [hieq, Finset.Ico_self, Finset.filter_empty, Finset.card_empty]
      rfl
  | succ m ih =>
    intro i healed cs' hm hile hlen hinv
    have hilt : i < cs.length := by omega
    -- the gap the loop reads equals the original gap at junction `i`
    have hnext_ne : ¬healedSet cs.length i ((i + 1) % cs.length) := by
      unfold healedSet
      rcases Nat.lt_or_ge (i + 1) cs.length with h | h
      · rw [Nat.mod_eq_of_lt h]
        omega
      · have : i + 1 = cs.length := by omega
        rw [this, Nat.mod_self]
        omega
    have hnext_lt : (i + 1) % cs.length < cs.length := Nat.mod_lt _ (by omega)
    have hnext_orig : cs'.getD ((i + 1) % cs.length) dummyCurve =
        cs.getD ((i + 1) % cs.length) dummyCurve :=
      (hinv _ hnext_lt).2 hnext_ne
    have hend_eq : (cs'.getD i dummyCurve).end_pt = (cs.getD i dummyCurve).end_pt := by
      by_cases hmem : healedSet cs.length i i
      · rw [(hinv i hilt).1 hmem, healedAt_end_pt]
      · rw [(hinv i hilt).2 hmem]
    have hgap : rawGap cs' i = rawGap cs i := by
      unfold rawGap
      rw [hlen, hnext_orig, hend_eq]
    rw [healFrom, dif_pos (by omega), hlen, hgap]
    by_cases hc : rawGap cs i > POINT_TOLERANCE ∧ rawGap cs i ≤ tol
    · rw [if_pos hc]
      have hres := ih (i + 1) (healed + 1)
        (cs'.set ((i + 1) % cs.length)
          ((cs'.getD ((i + 1) % cs.length) dummyCurve).set_start
            ((cs'.getD i dummyCurve).end_pt)))
        (by omega) (by omega)
        (by rw [List.length_set, hlen])
        ?_
      · refine ⟨hres.1, hres.2.1, ?_⟩
        rw [hres.2.2]
        have hsplit : Finset.Ico i cs.length = insert i (Finset.Ico (i + 1) cs.length) :=
          (Nat.Ico_insert_succ_left hilt).symm
        rw [hsplit, Finset.filter_insert, if_pos hc,
          Finset.card_insert_of_not_mem (by simp)]
        omega
      · -- the updated state satisfies the invariant at `i + 1`
        intro j hj
        by_cases hjn : j = (i + 1) % cs.length
        · subst hjn
          rw [getD_set_self (by rw [hlen]; exact hnext_lt)]
          constructor
          · intro _
            rw [hnext_orig, hend_eq]
            unfold healedAt
            rw [prevIdx_next hilt, if_pos hc]
          · intro hns
            exfalso
            apply hns
            unfold healedSet
            rcases Nat.lt_or_ge (i + 1) cs.length with h | h
            · rw [Nat.mod_eq_of_lt h]
              omega
            · have : i + 1 = cs.length := by omega
              rw [this, Nat.mod_self]
              omega
        · rw [getD_set_ne (fun h => hjn h.symm)]
          have hiff : healedSet cs.length (i + 1) j ↔ healedSet cs.length i j := by
            unfold healedSet
            constructor
            · rintro (⟨h1, h2⟩ | ⟨rfl, h2⟩)
              · rcases Nat.eq_or_lt_of_le h2 with rfl | h3
                · exfalso
                  apply hjn
                  rw [Nat.mod_eq_of_lt (by omega)]
                · exact Or.inl ⟨h1, by omega⟩
              · exfalso
                apply hjn
                have : i + 1 = cs.length := h2
                rw [this, Nat.mod_self]
            · rintro (⟨h1, h2⟩ | ⟨rfl, h2⟩)
              · exact Or.inl ⟨h1, by omega⟩
              · omega
          constructor
          · intro hs
            exact (hinv j hj).1 (hiff.mp hs)
          · intro hns
            exact (hinv j hj).2 (fun hs => hns (hiff.mpr hs))
    · rw [if_neg hc]
      have hres := ih (i + 1) healed cs' (by omega) (by omega) hlen ?_
      · refine ⟨hres.1, hres.2.1, ?_⟩
        rw [hres.2.2]
        have hsplit : Finset.Ico i cs.length = insert i (Finset.Ico (i + 1) cs.length) :=
          (Nat.Ico_insert_succ_left hilt).symm
        rw [hsplit, Finset.filter_insert, if_neg hc]
      · intro j hj
        have hprev : ¬healedSet cs.length i j → healedSet cs.length (i + 1) j →
            healedAt cs tol j = cs.getD j dummyCurve := by
          intro hns hs
          unfold healedAt
          have hp : prevIdx cs.length j = i := by
            unfold healedSet at hns hs
            rcases hs with ⟨h1, h2⟩ | ⟨rfl, h2⟩
            · have hj1 : j = i + 1 := by omega
              subst hj1
              unfold prevIdx
              have he : i + 1 + cs.length - 1 = i + cs.length := by omega
              rw [he, Nat.add_mod_right, Nat.mod_eq_of_lt hilt]
            · unfold prevIdx
              have he : 0 + cs.length - 1 = i := by omega
              rw [he, Nat.mod_eq_of_lt hilt]
          rw [hp, if_neg hc]
        constructor
        · intro hs
          by_cases hso : healedSet cs.length i j
          · exact (hinv j hj).1 hso
          · rw [(hinv j hj).2 hso, hprev hso hs]
        · intro hns
          refine (hinv j hj).2 (fun hso => hns ?_)
          unfold healedSet at hso ⊢
          omega

/-- C5: for a loop with at least two curves, `heal_gaps(tol)` snaps the next
curve's start onto the previous curve's end exactly at the junctions whose gap
lies in `(POINT_TOLERANCE, tol]` (a no-op when the successor is not a line),
leaves every other junction untouched, and returns the number of junctions it
healed. -/
theorem C5_heal_gaps_spec (l : Loop2D) (tol : ℝ) (hn : 2 ≤ l.curves.length) :
    ((l.heal_gaps tol).2 =
      ((Finset.range l.curves.length).filter
        (fun k => l.junction_gap k > POINT_TOLERANCE ∧ l.junction_gap k ≤ tol)).card) ∧
    ((l.heal_gaps tol).1.curves.length = l.curves.length) ∧
    (∀ j, j < l.curves.length →
      (l.heal_gaps tol).1.curves.getD j dummyCurve = healedAt l.curves tol j) ∧
    (∀ j, j < l.curves.length → (∀ li : Line2D, l.curves.getD j dummyCurve ≠ .Line li) →
      (l.heal_gaps tol).1.curves.getD j dummyCurve = l.curves.getD j dummyCurve) := by
  have hmain := healFrom_spec l.curves tol hn (l.curves.length - 0) 0 0 l.curves rfl
    (by omega) rfl ?_
  · have hgd : Loop2D.heal_gaps l tol = (⟨(healFrom tol l.curves 0 0).1⟩,
        (healFrom tol l.curves 0 0).2) := by
      unfold Loop2D.heal_gaps
      rw [if_neg (by omega)]
    refine ⟨?_, ?_, ?_, ?_⟩
    · rw [hgd]
      simp only
      rw [hmain.2.2, Nat.zero_add]
      simp only [Loop2D.junction_gap, Finset.range_eq_Ico]
    · rw [hgd]
      exact hmain.1
    · intro j hj
      rw [hgd]
      exact hmain.2.1 j hj
    · intro j hj hnl
      rw [hgd]
      simp only
      rw [hmain.2.1 j hj]
      unfold healedAt
      split_ifs with h
      · exact set_start_non_line _ _ hnl
      · rfl
  · intro j hj
    constructor
    · intro hs
      exfalso
      unfold healedSet at hs
      omega
    · intro _
      rfl

/-- Witness for C5: a two-line loop whose junction 1 (the wrap-around) has a
gap of `1/2 > tol`, and junction 0 a zero gap: nothing is healed and the count
is `0`. -/
theorem C5_witness :
    (2 ≤ (Loop2D.curves ⟨[.Line ⟨⟨0, 0⟩, ⟨1, 0⟩⟩, .Line ⟨⟨1, 0⟩, ⟨1 / 2, 0⟩⟩]⟩).length) ∧
    (Loop2D.heal_gaps ⟨[.Line ⟨⟨0, 0⟩, ⟨1, 0⟩⟩, .Line ⟨⟨1, 0⟩, ⟨1 / 2, 0⟩⟩]⟩ 1e-3).2 =
      ((Finset.range 2).filter
        (fun k => Loop2D.junction_gap ⟨[.Line ⟨⟨0, 0⟩, ⟨1, 0⟩⟩, .Line ⟨⟨1, 0⟩, ⟨1 / 2, 0⟩⟩]⟩ k >
            POINT_TOLERANCE ∧
          Loop2D.junction_gap ⟨[.Line ⟨⟨0, 0⟩, ⟨1, 0⟩⟩, .Line ⟨⟨1, 0⟩, ⟨1 / 2, 0⟩⟩]⟩ k ≤ 1e-3)).card := by
  refine ⟨by norm_num, ?_⟩
  exact (C5_heal_gaps_spec ⟨[.Line ⟨⟨0, 0⟩, ⟨1, 0⟩⟩, .Line ⟨⟨1, 0⟩, ⟨1 / 2, 0⟩⟩]⟩ 1e-3
    (by norm_num)).1

/-! ## Builder close -/

theorem loop_new_ok {cs : List Curve2D} {l : Loop2D} (h : Loop2D.new cs = .ok l) :
    l.curves = cs ∧ Loop2D.validate ⟨cs⟩ HEAL_TOLERANCE = .ok () := by
  simp only [Loop2D.new] at h
  cases hv : Loop2D.validate ⟨cs⟩ HEAL_TOLERANCE with
  | error e =>
    rw [hv] at h
    exact absurd h (by simp [Except.map])
  | ok u =>
    cases u
    rw [hv] at h
    simp only [Except.map, Except.ok.injEq] at h
    exact ⟨by rw [← h], rfl⟩

/-- C6: whenever `SketchBuilder::close` succeeds with a loop, validating that
loop at the same tolerance `close` used (`HEAL_TOLERANCE`) succeeds; and the
closing line is appended exactly when the gap from the current position back to
the start exceeds `POINT_TOLERANCE`. -/
theorem C6_close_validates (b : SketchBuilder) (l : Loop2D) (h : b.close = .ok l) :
    l.validate HEAL_TOLERANCE = .ok () ∧
    (∀ s c : Point2, b.start_pos = some s → b.current_pos = some c →
      (((c - s).magnitude > POINT_TOLERANCE →
        l.curves = b.curves ++ [.Line (Line2D.new_unchecked c s)]) ∧
      ((c - s).magnitude ≤ POINT_TOLERANCE → l.curves = b.curves))) := by
  obtain ⟨cs, cur, st⟩ := b
  unfold SketchBuilder.close at h
  by_cases he : cs.isEmpty
  · rw [if_pos he] at h
    exact absurd h (by simp)
  · rw [if_neg he] at h
    simp only at h
    cases st with
    | none => exact absurd h (by simp)
    | some s0 =>
      cases cur with
      | none => exact absurd h (by simp)
      | some c0 =>
        simp only at h
        obtain ⟨hcurves, hval⟩ := loop_new_ok h
        constructor
        · obtain ⟨lc⟩ := l
          simp only at hcurves
          subst hcurves
          exact hval
        · intro s c hs hc
          simp only [Option.some.injEq] at hs hc
          subst hs
          subst hc
          constructor
          · intro hgt
            rw [hcurves, if_pos hgt]
          · intro hle
            rw [hcurves, if_neg (not_lt.mpr hle)]

/-- Witness for C6: closing an L-shaped two-line chain appends the closing line
and yields a loop that re-validates at the heal tolerance. -/
theorem C6_witness :
    ∃ l : Loop2D,
      SketchBuilder.close
          ⟨[.Line ⟨⟨0, 0⟩, ⟨1, 0⟩⟩, .Line ⟨⟨1, 0⟩, ⟨1, 1⟩⟩], some ⟨1, 1⟩, some ⟨0, 0⟩⟩ =
        .ok l ∧
      l.validate HEAL_TOLERANCE = .ok () := by
  have hval : Loop2D.validate
      ⟨[.Line ⟨⟨0, 0⟩, ⟨1, 0⟩⟩, .Line ⟨⟨1, 0⟩, ⟨1, 1⟩⟩,
        .Line (Line2D.new_unchecked ⟨1, 1⟩ ⟨0, 0⟩)]⟩ HEAL_TOLERANCE = .ok () := by
    unfold Loop2D.validate
    rw [if_neg (by simp), if_neg (by simp)]
    rw [validateFrom_ok_iff]
    intro j h0 h3
    simp only [List.length_cons, List.length_nil] at h3
    interval_cases j <;>
      simp [rawGap, List.getD, Curve2D.end_pt, Curve2D.start_pt, Line2D.end_pt,
        Line2D.start_pt, Line2D.new_unchecked, Vector2.magnitude, HEAL_TOLERANCE] <;>
      norm_num
  have hgap : (1:ℝ) ≤ (Point2.mk 1 1 - Point2.mk 0 0).magnitude := by
    simp only [Vector2.magnitude, point2_sub_x, point2_sub_y]
    rw [show (1:ℝ) = Real.sqrt 1 by simp]
    apply Real.sqrt_le_sqrt
    norm_num
  have hok : SketchBuilder.close
      ⟨[.Line ⟨⟨0, 0⟩, ⟨1, 0⟩⟩, .Line ⟨⟨1, 0⟩, ⟨1, 1⟩⟩], some ⟨1, 1⟩, some ⟨0, 0⟩⟩ =
      .ok ⟨[.Line ⟨⟨0, 0⟩, ⟨1, 0⟩⟩, .Line ⟨⟨1, 0⟩, ⟨1, 1⟩⟩,
        .Line (Line2D.new_unchecked ⟨1, 1⟩ ⟨0, 0⟩)]⟩ := by
    unfold SketchBuilder.close
    rw [if_neg (by simp)]
    simp only
    rw [if_pos (by norm_num [POINT_TOLERANCE]; linarith)]
    simp only [Loop2D.new, List.cons_append, List.nil_append]
    rw [hval]
    rfl
  exact ⟨_, hok, (C6_close_validates _ _ hok).1⟩

/-! ## Reversal involution -/

theorem magnitude_sub_of_eq {p q : Point2} (h : p = q) : (p - q).magnitude = 0 := by
  subst h
  simp [Vector2.magnitude]

theorem knotInvert_invert (ks : List ℝ) : knotInvert (knotInvert ks) = ks := by
  cases hks : ks.head? with
  | none =>
    have h0 : ks = [] := by
      cases ks with
      | nil => rfl
      | cons a t => simp at hks
    subst h0
    rfl
  | some k0 =>
    have hne : ks ≠ [] := by
      intro h0
      rw [h0] at hks
      simp at hks
    obtain ⟨kn, hkn⟩ : ∃ kn, ks.getLast? = some kn :=
      ⟨ks.getLast hne, List.getLast?_eq_getLast ks hne⟩
    have hinner : knotInvert ks = ks.reverse.map (fun k => k0 + kn - k) := by
      unfold knotInvert
      rw [hks, hkn]
    have h1 : ((ks.reverse.map (fun k => k0 + kn - k)).head?) = some k0 := by
      rw [List.head?_map, List.head?_reverse, hkn]
      simp
    have h2 : ((ks.reverse.map (fun k => k0 + kn - k)).getLast?) = some kn := by
      rw [List.getLast?_map, List.getLast?_reverse, hks]
      simp
    have hid : ((fun k => k0 + kn - k) ∘ (fun k => k0 + kn - k)) = (id : ℝ → ℝ) := by
      funext x
      simp
    have hmain : knotInvert (knotInvert ks) =
        ((ks.reverse.map (fun k => k0 + kn - k)).reverse).map (fun k => k0 + kn - k) := by
      conv_lhs => rw [hinner]
      unfold knotInvert
      rw [h1, h2]
    rw [hmain, List.reverse_map, List.reverse_reverse, List.map_map, hid, List.map_id]

theorem bspline_reversed_involution (s : BSpline2D) : s.reversed.reversed = s := by
  obtain ⟨ks, cps⟩ := s
  unfold BSpline2D.reversed
  simp only [knotInvert_invert, List.reverse_reverse]

/-- C7: reversing any curve twice restores its start, end and length (here
exactly, hence within the `1e-9` of the specification). -/
theorem C7_reverse_involution (c : Curve2D) :
    ((c.reversed.reversed.start_pt - c.start_pt).magnitude ≤ 1e-9) ∧
    ((c.reversed.reversed.end_pt - c.end_pt).magnitude ≤ 1e-9) ∧
    (|c.reversed.reversed.length - c.length| ≤ 1e-9) := by
  have key : c.reversed.reversed.start_pt = c.start_pt ∧
      c.reversed.reversed.end_pt = c.end_pt ∧
      c.reversed.reversed.length = c.length := by
    cases c with
    | Line l => exact ⟨rfl, rfl, rfl⟩
    | Arc a =>
      obtain ⟨ct, r, s, w⟩ := a
      simp only [Curve2D.reversed, Arc2D.reversed, Curve2D.start_pt, Curve2D.end_pt,
        Curve2D.length, Arc2D.start_pt, Arc2D.end_pt, Arc2D.length, neg_neg, abs_neg]
      refine ⟨?_, ?_, trivial⟩
      · have hc : Real.cos (normalize_angle (normalize_angle (s + w) + -w)) = Real.cos s := by
          rw [cos_normalize_angle, cos_normalize_angle_add]
          ring_nf
        have hs : Real.sin (normalize_angle (normalize_angle (s + w) + -w)) = Real.sin s := by
          rw [sin_normalize_angle, sin_normalize_angle_add]
          ring_nf
        rw [hc, hs]
      · have hc : Real.cos (normalize_angle (normalize_angle (s + w) + -w) + w) =
            Real.cos (s + w) := by
          rw [cos_normalize_angle_add]
          have he : normalize_angle (s + w) + -w + w = normalize_angle (s + w) := by ring
          rw [he, cos_normalize_angle]
        have hs : Real.sin (normalize_angle (normalize_angle (s + w) + -w) + w) =
            Real.sin (s + w) := by
          rw [sin_normalize_angle_add]
          have he : normalize_angle (s + w) + -w + w = normalize_angle (s + w) := by ring
          rw [he, sin_normalize_angle]
        rw [hc, hs]
    | Circle ci =>
      obtain ⟨ct, r, sa, ccw⟩ := ci
      simp [Curve2D.reversed, Circle2D.reversed, Bool.not_not]
    | BSpline s =>
      simp [Curve2D.reversed, bspline_reversed_involution]
  refine ⟨?_, ?_, ?_⟩
  · rw [magnitude_sub_of_eq key.1]
    norm_num
  · rw [magnitude_sub_of_eq key.2.1]
    norm_num
  · rw [key.2.2, sub_self, abs_zero]
    norm_num

/-! ## Topology: wire conversion -/

/-- Every non-circle curve converts to an edge when its two vertices are
distinct entities. -/
theorem arc_to_nurbs_ok (c : Point3) (n : Vector3) (s : Point3) (w : ℝ) :
    ∃ nd, arc_to_nurbs c n s w = .ok nd := ⟨_, rfl⟩

theorem curve_to_edge_ok (c : Curve2D) (plane : Plane) (v0 v1 : Vertex)
    (hne : v0.id ≠ v1.id) (hnc : ∀ ci : Circle2D, c ≠ .Circle ci) :
    ∃ e, curve_to_edge_with_vertices c plane v0 v1 = .ok e := by
  cases c with
  | Line li => exact ⟨_, rfl⟩
  | Arc a =>
    obtain ⟨nd, hnd⟩ := arc_to_nurbs_ok (plane.lift_point a.center) plane.normal
      (plane.lift_point a.start_pt) a.sweep_angle
    refine ⟨⟨v0, v1, .NurbsCurve nd⟩, ?_⟩
    simp only [curve_to_edge_with_vertices, arc_to_edge_with_vertices]
    rw [hnd, except_bind_ok]
    simp only [Edge.try_new]
    rw [if_neg hne]
  | Circle ci => exact absurd rfl (hnc ci)
  | BSpline s =>
    refine ⟨⟨v0, v1, .BSplineCurve (uniform_knot (s.control_points.map plane.lift_point).length
      s.degree) (s.control_points.map plane.lift_point)⟩, ?_⟩
    simp only [curve_to_edge_with_vertices, bspline_to_edge_with_vertices, Edge.try_new]
    rw [if_neg hne]

theorem next_idx_ne {n i : ℕ} (hn : 2 ≤ n) (hi : i < n) : (i + 1) % n ≠ i := by
  rcases Nat.lt_or_ge (i + 1) n with h | h
  · rw [Nat.mod_eq_of_lt h]
    omega
  · have : i + 1 = n := by omega
    rw [this, Nat.mod_self]
    omega

/-- The edge-building loop fails with the circle error as soon as some curve at
or after the current index is a circle, provided the vertex list carries the
index as identifier. -/
theorem buildEdges_circle_error (plane : Plane) (cs : List Curve2D) (vs : List Vertex)
    (hn : 2 ≤ cs.length)
    (hid : ∀ i, i < cs.length → (vs.getD i ⟨0, ⟨0, 0, 0⟩⟩).id = i) :
    ∀ m i, cs.length - i = m →
      (∃ j ci, i ≤ j ∧ j < cs.length ∧ cs.getD j dummyCurve = .Circle ci) →
      buildEdges plane cs vs i =
        .error (.TruckEdgeError "Circle cannot be part of a multi-curve loop") := by
  intro m
  induction m with
  | zero =>
    rintro i hm ⟨j, ci, hij, hjn, -⟩
    omega
  | succ m ih =>
    rintro i hm ⟨j, ci, hij, hjn, hcj⟩
    have hilt : i < cs.length := by omega
    rw [buildEdges, dif_pos hilt]
    cases hcur : cs.getD i dummyCurve with
    | Circle ci' => rfl
    | Line li =>
      have hj1 : i + 1 ≤ j := by
        rcases Nat.eq_or_lt_of_le hij with rfl | h
        · rw [hcj] at hcur
          exact absurd hcur.symm (by simp)
        · omega
      rw [show curve_to_edge_with_vertices (.Line li) plane (vs.getD i ⟨0, ⟨0, 0, 0⟩⟩)
          (vs.getD ((i + 1) % cs.length) ⟨0, ⟨0, 0, 0⟩⟩) =
        .ok (builderLine (vs.getD i ⟨0, ⟨0, 0, 0⟩⟩)
          (vs.getD ((i + 1) % cs.length) ⟨0, ⟨0, 0, 0⟩⟩)) from rfl]
      rw [except_bind_ok, ih (i + 1) (by omega) ⟨j, ci, hj1, hjn, hcj⟩, except_bind_error]
    | Arc a =>
      have hj1 : i + 1 ≤ j := by
        rcases Nat.eq_or_lt_of_le hij with rfl | h
        · rw [hcj] at hcur
          exact absurd hcur.symm (by simp)
        · omega
      have hne : (vs.getD i ⟨0, ⟨0, 0, 0⟩⟩).id ≠
          (vs.getD ((i + 1) % cs.length) ⟨0, ⟨0, 0, 0⟩⟩).id := by
        rw [hid i hilt, hid _ (Nat.mod_lt _ (by omega))]
        exact fun hcontra => next_idx_ne hn hilt hcontra.symm
      obtain ⟨e, he⟩ := curve_to_edge_ok (.Arc a) plane _ _ hne (by simp)
      rw [he, except_bind_ok, ih (i + 1) (by omega) ⟨j, ci, hj1, hjn, hcj⟩,
        except_bind_error]
    | BSpline sp =>
      have hj1 : i + 1 ≤ j := by
        rcases Nat.eq_or_lt_of_le hij with rfl | h
        · rw [hcj] at hcur
          exact absurd hcur.symm (by simp)
        · omega
      have hne : (vs.getD i ⟨0, ⟨0, 0, 0⟩⟩).id ≠
          (vs.getD ((i + 1) % cs.length) ⟨0, ⟨0, 0, 0⟩⟩).id := by
        rw [hid i hilt, hid _ (Nat.mod_lt _ (by omega))]
        exact fun hcontra => next_idx_ne hn hilt hcontra.symm
      obtain ⟨e, he⟩ := curve_to_edge_ok (.BSpline sp) plane _ _ hne (by simp)
      rw [he, except_bind_ok, ih (i + 1) (by omega) ⟨j, ci, hj1, hjn, hcj⟩,
        except_bind_error]

/-- C9: converting a loop of more than one curve fails with the circle edge
error whenever one of its members is a full circle — a circle may only appear
as the sole curve of a loop. -/
theorem C9_circle_member_rejected (l : Loop2D) (plane : Plane)
    (h2 : 2 ≤ l.curves.length) (hc : ∃ ci : Circle2D, Curve2D.Circle ci ∈ l.curves) :
    l.to_truck_wire plane =
      .error (.TruckEdgeError "Circle cannot be part of a multi-curve loop") := by
  obtain ⟨ci, hmem⟩ := hc
  unfold Loop2D.to_truck_wire
  rw [if_neg (by rw [List.isEmpty_iff]; intro h0; rw [h0] at h2; simp at h2),
    if_neg (by omega)]
  have hid : ∀ i, i < l.curves.length →
      (((List.range l.curves.length).map
        (fun i => (⟨i, plane.lift_point ((l.curves.getD i dummyCurve).start_pt)⟩ : Vertex))).getD
          i ⟨0, ⟨0, 0, 0⟩⟩).id = i := by
    intro i hi
    rw [List.getD_eq_getElem _ _ (by simpa using hi), List.getElem_map, List.getElem_range]
  obtain ⟨j, hjn, hj⟩ := List.getElem_of_mem hmem
  exact buildEdges_circle_error plane l.curves _ h2 hid _ 0 rfl
    ⟨j, ci, Nat.zero_le j, hjn, by rw [List.getD_eq_getElem _ _ hjn, hj]⟩

/-- Witness for C9: a two-curve loop of a line followed by a unit circle is
rejected with the circle edge error. -/
theorem C9_witness :
    Loop2D.to_truck_wire ⟨[.Line ⟨⟨0, 0⟩, ⟨1, 0⟩⟩, .Circle ⟨⟨0, 0⟩, 1, 0, true⟩]⟩ Plane.xy =
      .error (.TruckEdgeError "Circle cannot be part of a multi-curve loop") :=
  C9_circle_member_rejected _ _ (by norm_num)
    ⟨⟨⟨0, 0⟩, 1, 0, true⟩, by simp⟩

/-! ## Single-curve wires -/

/-- C10: a single-curve loop whose curve is not a circle is always rejected by
`to_truck_wire` as `OpenLoop` at index 0 with the measured end-to-start gap —
even for a closed curve; in particular a full-sweep arc is accepted by
`from_closed_curve` (its gap is exactly zero) yet can never be converted to a
wire. -/
theorem C10_single_noncircle_rejected :
    (∀ (c : Curve2D) (plane : Plane), (∀ ci : Circle2D, c ≠ .Circle ci) →
      Loop2D.to_truck_wire ⟨[c]⟩ plane =
        .error (.OpenLoop 0 ((c.end_pt - c.start_pt).magnitude))) ∧
    (∀ (ct : Point2) (r θ : ℝ), 0 < r →
      Loop2D.from_closed_curve (.Arc ⟨ct, r, θ, TAU⟩) = .ok ⟨[.Arc ⟨ct, r, θ, TAU⟩]⟩ ∧
      ∀ plane : Plane, Loop2D.to_truck_wire ⟨[.Arc ⟨ct, r, θ, TAU⟩]⟩ plane =
        .error (.OpenLoop 0 0)) := by
  have hsingle : ∀ (c : Curve2D) (plane : Plane), (∀ ci : Circle2D, c ≠ .Circle ci) →
      Loop2D.to_truck_wire ⟨[c]⟩ plane =
        .error (.OpenLoop 0 ((c.end_pt - c.start_pt).magnitude)) := by
    intro c plane hnc
    unfold Loop2D.to_truck_wire
    rw [if_neg (by simp), if_pos (by simp)]
    cases c with
    | Line li => rfl
    | Arc a => rfl
    | Circle ci => exact absurd rfl (hnc ci)
    | BSpline s => rfl
  refine ⟨hsingle, ?_⟩
  intro ct r θ hr
  have hclosed : (Curve2D.Arc ⟨ct, r, θ, TAU⟩).end_pt = (Curve2D.Arc ⟨ct, r, θ, TAU⟩).start_pt := by
    simp only [Curve2D.end_pt, Curve2D.start_pt, Arc2D.end_pt, Arc2D.start_pt]
    have hc : Real.cos (θ + TAU) = Real.cos θ := by
      unfold TAU
      exact Real.cos_add_two_pi θ
    have hs : Real.sin (θ + TAU) = Real.sin θ := by
      unfold TAU
      exact Real.sin_add_two_pi θ
    rw [hc, hs]
  have hgap0 : ((Curve2D.Arc ⟨ct, r, θ, TAU⟩).end_pt -
      (Curve2D.Arc ⟨ct, r, θ, TAU⟩).start_pt).magnitude = 0 :=
    magnitude_sub_of_eq hclosed
  constructor
  · unfold Loop2D.from_closed_curve
    rw [if_pos]
    unfold Curve2D.is_closed
    rw [magnitude_sub_of_eq hclosed.symm]
    norm_num [POINT_TOLERANCE]
  · intro plane
    rw [hsingle _ plane (by simp), hgap0]

/-- Witness for C10: the unit line segment as a sole loop member is rejected as
an open loop, and the unit full-turn arc passes `from_closed_curve` but its
wire conversion fails with a zero-gap `OpenLoop` error. -/
theorem C10_witness :
    (Loop2D.to_truck_wire ⟨[.Line ⟨⟨0, 0⟩, ⟨1, 0⟩⟩]⟩ Plane.xy =
      .error (.OpenLoop 0 (((Curve2D.Line ⟨⟨0, 0⟩, ⟨1, 0⟩⟩).end_pt -
        (Curve2D.Line ⟨⟨0, 0⟩, ⟨1, 0⟩⟩).start_pt).magnitude))) ∧
    (Loop2D.from_closed_curve (.Arc ⟨⟨0, 0⟩, 1, 0, TAU⟩) = .ok ⟨[.Arc ⟨⟨0, 0⟩, 1, 0, TAU⟩]⟩ ∧
      Loop2D.to_truck_wire ⟨[.Arc ⟨⟨0, 0⟩, 1, 0, TAU⟩]⟩ Plane.xy = .error (.OpenLoop 0 0)) :=
  ⟨C10_single_noncircle_rejected.1 _ Plane.xy (by simp),
    (C10_single_noncircle_rejected.2 ⟨0, 0⟩ 1 0 (by norm_num)).1,
    ((C10_single_noncircle_rejected.2 ⟨0, 0⟩ 1 0 (by norm_num)).2 Plane.xy)⟩

/-! ## from_start_end_center -/

/-- C2 (amended): a successful `from_start_end_center` yields a sweep that is
strictly positive for CCW and strictly negative for CW with `|sweep| ≤ 2π`
(wraparound across the `0`/`2π` boundary included); the arc's `start()` and
`end()` reproduce the supplied points whenever the two supplied points are
exactly equidistant from the center (in general both are radially rescaled to
the mean radius `(r1 + r2) / 2`). -/
theorem C2_from_start_end_center_spec (s e c : Point2) (ccw : Bool) (a : Arc2D)
    (h : Arc2D.from_start_end_center s e c ccw = .ok a) :
    (ccw = true → 0 < a.sweep_angle) ∧
    (ccw = false → a.sweep_angle < 0) ∧
    |a.sweep_angle| ≤ TAU ∧
    ((s - c).magnitude = (e - c).magnitude → a.start_pt = s ∧ a.end_pt = e) := by
  obtain ⟨sx, sy⟩ := s
  obtain ⟨ex, ey⟩ := e
  obtain ⟨cx, cy⟩ := c
  simp only [Arc2D.from_start_end_center] at h
  split_ifs at h with hmis hdeg
  simp only [Arc2D.new] at h
  split_ifs at h with g1 g2
  simp only [Except.ok.injEq] at h
  subst h
  have hτ := TAU_pos
  have hπ := Real.pi_pos
  set θs := atan2 (sy - cy) (sx - cx) with hθs
  set θe := atan2 (ey - cy) (ex - cx) with hθe
  set r1 := (Point2.mk sx sy - Point2.mk cx cy).magnitude with hr1
  set r2 := (Point2.mk ex ey - Point2.mk cx cy).magnitude with hr2
  have hd_hi : θe - θs < TAU := by
    have h1 := neg_pi_lt_atan2 (sy - cy) (sx - cx)
    have h2 := atan2_le_pi (ey - cy) (ex - cx)
    rw [← hθs] at h1
    rw [← hθe] at h2
    unfold TAU
    linarith
  have hd_lo : -TAU < θe - θs := by
    have h1 := atan2_le_pi (sy - cy) (sx - cx)
    have h2 := neg_pi_lt_atan2 (ey - cy) (ex - cx)
    rw [← hθs] at h1
    rw [← hθe] at h2
    unfold TAU
    linarith
  have hbounds : -TAU ≤ compute_sweep_angle θs θe ccw ∧
      compute_sweep_angle θs θe ccw ≤ TAU := by
    cases ccw with
    | true =>
      unfold compute_sweep_angle
      simp only [if_true]
      constructor
      · linarith [sweepLoopCcw_pos (θe - θs)]
      · have hle := sweepLoopCcw_le (θe - θs)
        rw [max_eq_right hd_hi.le] at hle
        exact hle
    | false =>
      unfold compute_sweep_angle
      simp only [Bool.false_eq_true, if_false]
      constructor
      · have hge := sweepLoopCw_ge (θe - θs)
        rw [min_eq_right hd_lo.le] at hge
        exact hge
      · linarith [sweepLoopCw_neg (θe - θs)]
  have hclamp : fclamp (compute_sweep_angle θs θe ccw) (-TAU) TAU =
      compute_sweep_angle θs θe ccw := fclamp_eq_self hbounds.1 hbounds.2
  refine ⟨?_, ?_, abs_fclamp_tau_le _, ?_⟩
  · intro hc
    subst hc
    show 0 < fclamp (compute_sweep_angle θs θe true) (-TAU) TAU
    rw [hclamp]
    unfold compute_sweep_angle
    simp only [if_true]
    exact sweepLoopCcw_pos _
  · intro hc
    subst hc
    show fclamp (compute_sweep_angle θs θe false) (-TAU) TAU < 0
    rw [hclamp]
    unfold compute_sweep_angle
    simp only [Bool.false_eq_true, if_false]
    exact sweepLoopCw_neg _
  · intro hreq
    have hrad1 : (r1 + r2) / 2 = r1 := by rw [hreq]; ring
    have hrad2 : (r1 + r2) / 2 = r2 := by rw [hreq]; ring
    have hr1pos : 0 < r1 := by
      rw [not_le] at hdeg
      have : (0:ℝ) < DEGENERATE_TOLERANCE := by norm_num [DEGENERATE_TOLERANCE]
      nlinarith [hrad1]
    have hr2pos : 0 < r2 := by rwa [← hreq]
    have hsc : ¬(sx - cx = 0 ∧ sy - cy = 0) := by
      rintro ⟨hx, hy⟩
      have h0 : r1 = 0 := by
        rw [hr1]
        exact Vector2.magnitude_eq_zero.mpr ⟨hx, hy⟩
      linarith
    have hec : ¬(ex - cx = 0 ∧ ey - cy = 0) := by
      rintro ⟨hx, hy⟩
      have h0 : r2 = 0 := by
        rw [hr2]
        exact Vector2.magnitude_eq_zero.mpr ⟨hx, hy⟩
      linarith
    have hm1 : Vector2.magnitude ⟨sx - cx, sy - cy⟩ = r1 := hr1.symm
    have hm2 : Vector2.magnitude ⟨ex - cx, ey - cy⟩ = r2 := hr2.symm
    have hcos_s : Real.cos (normalize_angle θs) = (sx - cx) / r1 := by
      rw [cos_normalize_angle, hθs, cos_atan2 hsc, hm1]
    have hsin_s : Real.sin (normalize_angle θs) = (sy - cy) / r1 := by
      rw [sin_normalize_angle, hθs, sin_atan2, hm1]
    have hcos_e : Real.cos (normalize_angle θs +
        fclamp (compute_sweep_angle θs θe ccw) (-TAU) TAU) = (ex - cx) / r2 := by
      rw [hclamp]
      have key : Real.cos (normalize_angle θs + compute_sweep_angle θs θe ccw) =
          Real.cos θe := by
        cases ccw with
        | true =>
          obtain ⟨k, hk⟩ := sweepLoopCcw_spec (θe - θs)
          unfold compute_sweep_angle
          simp only [if_true]
          rw [hk, cos_normalize_angle_add]
          have he : θs + (θe - θs + (k : ℝ) * TAU) = θe + ((k : ℤ) : ℝ) * (2 * Real.pi) := by
            unfold TAU
            push_cast
            ring
          rw [he, Real.cos_add_int_mul_two_pi]
        | false =>
          obtain ⟨k, hk⟩ := sweepLoopCw_spec (θe - θs)
          unfold compute_sweep_angle
          simp only [Bool.false_eq_true, if_false]
          rw [hk, cos_normalize_angle_add]
          have he : θs + (θe - θs - (k : ℝ) * TAU) = θe + ((-(k : ℤ) : ℤ) : ℝ) * (2 * Real.pi) := by
            unfold TAU
            push_cast
            ring
          rw [he, Real.cos_add_int_mul_two_pi]
      rw [key, hθe, cos_atan2 hec, hm2]
    have hsin_e : Real.sin (normalize_angle θs +
        fclamp (compute_sweep_angle θs θe ccw) (-TAU) TAU) = (ey - cy) / r2 := by
      rw [hclamp]
      have key : Real.sin (normalize_angle θs + compute_sweep_angle θs θe ccw) =
          Real.sin θe := by
        cases ccw with
        | true =>
          obtain ⟨k, hk⟩ := sweepLoopCcw_spec (θe - θs)
          unfold compute_sweep_angle
          simp only [if_true]
          rw [hk, sin_normalize_angle_add]
          have he : θs + (θe - θs + (k : ℝ) * TAU) = θe + ((k : ℤ) : ℝ) * (2 * Real.pi) := by
            unfold TAU
            push_cast
            ring
          rw [he, Real.sin_add_int_mul_two_pi]
        | false =>
          obtain ⟨k, hk⟩ := sweepLoopCw_spec (θe - θs)
          unfold compute_sweep_angle
          simp only [Bool.false_eq_true, if_false]
          rw [hk, sin_normalize_angle_add]
          have he : θs + (θe - θs - (k : ℝ) * TAU) = θe + ((-(k : ℤ) : ℤ) : ℝ) * (2 * Real.pi) := by
            unfold TAU
            push_cast
            ring
          rw [he, Real.sin_add_int_mul_two_pi]
      rw [key, hθe, sin_atan2, hm2]
    constructor
    · simp only [Arc2D.start_pt, hcos_s, hsin_s, hrad1, Point2.mk.injEq]
      constructor
      · field_simp
      · field_simp
    · simp only [Arc2D.end_pt, hcos_e, hsin_e, hrad2, Point2.mk.injEq]
      constructor
      · field_simp
      · field_simp

theorem atan2_zero_one : atan2 0 1 = 0 := by
  unfold atan2
  rw [show (⟨1, 0⟩ : ℂ) = 1 by norm_num [Complex.ext_iff]]
  exact Complex.arg_one

theorem atan2_pos_zero {y : ℝ} (hy : 0 < y) : atan2 y 0 = Real.pi / 2 := by
  unfold atan2
  rw [show (⟨0, y⟩ : ℂ) = (y : ℂ) * Complex.I by norm_num [Complex.ext_iff]]
  rw [Complex.arg_real_mul _ hy]
  exact Complex.arg_I

theorem sweep_zero_half_pi : compute_sweep_angle 0 (Real.pi / 2) true = Real.pi / 2 := by
  unfold compute_sweep_angle
  simp only [if_true]
  rw [sub_zero, sweepLoopCcw, dif_neg (not_le.mpr (by positivity))]

/-- C2 counterexample: for start `(1, 0)`, end `(0, 1 + 1e-9)`, center `(0, 0)`
and `ccw = true`, the two radii differ (within the allowed relative tolerance),
the construction succeeds, but `start()`/`end()` sit on the mean radius and do
not reproduce the supplied points. -/
theorem C2_counterexample :
    ∃ a : Arc2D,
      Arc2D.from_start_end_center ⟨1, 0⟩ ⟨0, 1 + 1e-9⟩ ⟨0, 0⟩ true = .ok a ∧
      ¬(a.start_pt = ⟨1, 0⟩ ∧ a.end_pt = ⟨0, 1 + 1e-9⟩) := by
  have hπ3 := Real.pi_gt_three
  have hr1 : (Point2.mk 1 0 - Point2.mk 0 0).magnitude = 1 := by
    simp [Vector2.magnitude]
  have hr2 : (Point2.mk 0 (1 + 1e-9) - Point2.mk 0 0).magnitude = 1 + 1e-9 := by
    simp only [Vector2.magnitude, point2_sub_x, point2_sub_y]
    rw [show ((0:ℝ) - 0) ^ 2 + (1 + 1e-9 - 0) ^ 2 = (1 + 1e-9) ^ 2 by ring]
    exact Real.sqrt_sq (by norm_num)
  have hok : Arc2D.from_start_end_center ⟨1, 0⟩ ⟨0, 1 + 1e-9⟩ ⟨0, 0⟩ true =
      .ok ⟨⟨0, 0⟩, (1 + (1 + 1e-9)) / 2, 0, Real.pi / 2⟩ := by
    simp only [Arc2D.from_start_end_center]
    rw [hr1, hr2]
    rw [if_neg (by rw [abs_of_nonpos (by norm_num)]; norm_num [LENGTH_TOLERANCE]),
      if_neg (by norm_num [DEGENERATE_TOLERANCE])]
    norm_num [atan2_zero_one, atan2_pos_zero, sweep_zero_half_pi]
    simp only [Arc2D.new]
    rw [if_neg (by norm_num [DEGENERATE_TOLERANCE]),
      if_neg (by rw [abs_of_pos (by positivity)]; norm_num [ANGLE_TOLERANCE]; linarith)]
    rw [normalize_angle_zero,
      fclamp_eq_self (by unfold TAU; linarith) (by unfold TAU; linarith)]
  refine ⟨_, hok, ?_⟩
  rintro ⟨-, h2⟩
  have h2' := h2
  simp only [Arc2D.end_pt, Point2.mk.injEq] at h2'
  have hy := h2'.2
  rw [zero_add, zero_add, Real.sin_pi_div_two] at hy
  norm_num at hy

/-- Witness for the amended C2: start `(1, 0)`, end `(0, 1)`, center `(0, 0)`,
`ccw = true` succeeds with positive sweep of at most `2π`, and the arc
reproduces both supplied points exactly. -/
theorem C2_witness :
    ∃ a : Arc2D,
      Arc2D.from_start_end_center ⟨1, 0⟩ ⟨0, 1⟩ ⟨0, 0⟩ true = .ok a ∧
      0 < a.sweep_angle ∧ |a.sweep_angle| ≤ TAU ∧
      a.start_pt = ⟨1, 0⟩ ∧ a.end_pt = ⟨0, 1⟩ := by
  have hπ3 := Real.pi_gt_three
  have hr1 : (Point2.mk 1 0 - Point2.mk 0 0).magnitude = 1 := by
    simp [Vector2.magnitude]
  have hr2 : (Point2.mk 0 1 - Point2.mk 0 0).magnitude = 1 := by
    simp [Vector2.magnitude]
  have hok : Arc2D.from_start_end_center ⟨1, 0⟩ ⟨0, 1⟩ ⟨0, 0⟩ true =
      .ok ⟨⟨0, 0⟩, (1 + 1) / 2, 0, Real.pi / 2⟩ := by
    simp only [Arc2D.from_start_end_center]
    rw [hr1, hr2]
    rw [if_neg (by norm_num [LENGTH_TOLERANCE]),
      if_neg (by norm_num [DEGENERATE_TOLERANCE])]
    norm_num [atan2_zero_one, atan2_pos_zero, sweep_zero_half_pi]
    simp only [Arc2D.new]
    rw [if_neg (by norm_num [DEGENERATE_TOLERANCE]),
      if_neg (by rw [abs_of_pos (by positivity)]; norm_num [ANGLE_TOLERANCE]; linarith)]
    rw [normalize_angle_zero,
      fclamp_eq_self (by unfold TAU; linarith) (by unfold TAU; linarith)]
  have hspec := C2_from_start_end_center_spec _ _ _ _ _ hok
  refine ⟨_, hok, hspec.1 rfl, hspec.2.2.1, ?_, ?_⟩
  · exact (hspec.2.2.2 (by rw [hr1, hr2])).1
  · exact (hspec.2.2.2 (by rw [hr1, hr2])).2

/-! ## Arc-to-NURBS fidelity -/

theorem point3_ext {p q : Point3} (hx : p.x = q.x) (hy : p.y = q.y) (hz : p.z = q.z) :
    p = q := by
  cases p
  cases q
  simp_all

theorem vec3_ext {u v : Vector3} (hx : u.x = v.x) (hy : u.y = v.y) (hz : u.z = v.z) :
    u = v := by
  cases u
  cases v
  simp_all

theorem magnitude3_sub_of_eq {p q : Point3} (h : p = q) : (p - q).magnitude = 0 := by
  subst h
  simp [Vector3.magnitude]

theorem lift_xy (p : Point2) : Plane.xy.lift_point p = ⟨p.x, p.y, 0⟩ := by
  apply point3_ext <;> simp [Plane.lift_point, Plane.xy]

theorem normal_xy : Plane.xy.normal = ⟨0, 0, 1⟩ := by
  apply vec3_ext <;>
    simp [Plane.normal, Plane.xy, Vector3.cross, Vector3.normalize, Vector3.magnitude]

/-- The exact data produced by `arc_to_nurbs` for a quarter-circle arc in the
`xy`-plane: a single rational Bezier segment with weight `√2 / 2`. -/
theorem arc_to_nurbs_quarter (cx cy r θ : ℝ) (hr : 0 < r) :
    arc_to_nurbs ⟨cx, cy, 0⟩ ⟨0, 0, 1⟩ ⟨cx + r * Real.cos θ, cy + r * Real.sin θ, 0⟩
        (Real.pi / 2) =
      .ok ⟨[0, 0, 0, 1, 1, 1],
        [(cx + r * Real.cos θ, cy + r * Real.sin θ, (0:ℝ), (1:ℝ)),
         ((cx + r * (Real.cos θ - Real.sin θ)) * (Real.sqrt 2 / 2),
          (cy + r * (Real.sin θ + Real.cos θ)) * (Real.sqrt 2 / 2), (0:ℝ), Real.sqrt 2 / 2),
         (cx - r * Real.sin θ, cy + r * Real.cos θ, (0:ℝ), (1:ℝ))]⟩ := by
  have hπ := Real.pi_pos
  have hs2 : Real.sqrt 2 * Real.sqrt 2 = 2 := Real.mul_self_sqrt (by norm_num)
  have hs2pos : (0:ℝ) < Real.sqrt 2 := Real.sqrt_pos.mpr (by norm_num)
  have hpyth : r * Real.cos θ * (r * Real.cos θ) + r * Real.sin θ * (r * Real.sin θ) = r * r := by
    have := Real.sin_sq_add_cos_sq θ
    nlinarith
  simp only [arc_to_nurbs]
  have hsub : (Point3.mk (cx + r * Real.cos θ) (cy + r * Real.sin θ) 0 - Point3.mk cx cy 0) =
      (⟨r * Real.cos θ, r * Real.sin θ, 0⟩ : Vector3) := by
    apply vec3_ext <;> simp
  rw [hsub]
  have hmag : Vector3.magnitude ⟨r * Real.cos θ, r * Real.sin θ, 0⟩ = r := by
    unfold Vector3.magnitude
    simp only
    rw [show (r * Real.cos θ) ^ 2 + (r * Real.sin θ) ^ 2 + 0 ^ 2 = r ^ 2 by nlinarith]
    exact Real.sqrt_sq hr.le
  rw [hmag]
  have hxaxis : Vector3.normalize ⟨r * Real.cos θ, r * Real.sin θ, 0⟩ =
      ⟨Real.cos θ, Real.sin θ, 0⟩ := by
    unfold Vector3.normalize
    rw [hmag]
    apply vec3_ext <;> simp <;> field_simp
  rw [hxaxis]
  have hcross : Vector3.cross ⟨0, 0, 1⟩ ⟨Real.cos θ, Real.sin θ, 0⟩ =
      ⟨-Real.sin θ, Real.cos θ, 0⟩ := by
    apply vec3_ext <;> simp [Vector3.cross]
  rw [hcross]
  have hyaxis : Vector3.normalize ⟨-Real.sin θ, Real.cos θ, 0⟩ =
      ⟨-Real.sin θ, Real.cos θ, 0⟩ := by
    have hm1 : Vector3.magnitude ⟨-Real.sin θ, Real.cos θ, 0⟩ = 1 := by
      unfold Vector3.magnitude
      simp only
      rw [show (-Real.sin θ) ^ 2 + Real.cos θ ^ 2 + 0 ^ 2 = 1 by
        have := Real.sin_sq_add_cos_sq θ
        nlinarith]
      exact Real.sqrt_one
    unfold Vector3.normalize
    rw [hm1]
    apply vec3_ext <;> simp
  rw [hyaxis]
  have hnseg : max (⌈|Real.pi / 2| / (Real.pi / 2)⌉.toNat) 1 = 1 := by
    rw [abs_of_pos (by positivity), div_self (by positivity)]
    norm_num
  rw [hnseg]
  have hw1 : Real.cos (|Real.pi / 2 / (1:ℕ)| / 2) = Real.sqrt 2 / 2 := by
    rw [Nat.cast_one, div_one, abs_of_pos (by positivity),
      show Real.pi / 2 / 2 = Real.pi / 4 by ring]
    exact Real.cos_pi_div_four
  rw [hw1]
  simp only [List.range_succ, List.range_zero, List.flatMap_cons, List.flatMap_nil,
    List.append_nil, List.nil_append, List.cons_append, Nat.cast_zero, Nat.cast_one,
    div_one, zero_mul, zero_add, one_mul, Except.ok.injEq, NurbsData.mk.injEq]
  constructor
  · norm_num
  · simp only [Real.cos_zero, Real.sin_zero, one_smul, zero_smul,
      point3_add_x, point3_add_y, point3_add_z, vec3_add_x, vec3_add_y, vec3_add_z,
      vec3_smul_x, vec3_smul_y, vec3_smul_z, List.cons.injEq, Prod.mk.injEq,
      and_true, List.nil_eq]
    rw [show Real.pi / 2 / 2 = Real.pi / 4 by ring, Real.cos_pi_div_four,
      Real.sin_pi_div_four, Real.cos_pi_div_two, Real.sin_pi_div_two]
    refine ⟨⟨by ring, by ring, by ring⟩, ⟨?_, ?_, by ring⟩, by ring, by ring, by ring⟩
    · field_simp
      ring
    · field_simp
      ring

/-- Evaluation of a one-segment (quadratic Bezier) rational curve with clamped
knots `[0,0,0,1,1,1]` at any parameter, in terms of the three basis values. -/
theorem eval_bezier3 (P0 P1 P2 : ℝ × ℝ × ℝ × ℝ) (t b0 b1 b2 : ℝ)
    (h0 : bsplineBasis [0, 0, 0, 1, 1, 1] 2 0 t = b0)
    (h1 : bsplineBasis [0, 0, 0, 1, 1, 1] 2 1 t = b1)
    (h2 : bsplineBasis [0, 0, 0, 1, 1, 1] 2 2 t = b2) :
    NurbsData.eval ⟨[0, 0, 0, 1, 1, 1], [P0, P1, P2]⟩ t =
      ⟨(b0 * P0.1 + b1 * P1.1 + b2 * P2.1) /
          (b0 * P0.2.2.2 + b1 * P1.2.2.2 + b2 * P2.2.2.2),
        (b0 * P0.2.1 + b1 * P1.2.1 + b2 * P2.2.1) /
          (b0 * P0.2.2.2 + b1 * P1.2.2.2 + b2 * P2.2.2.2),
        (b0 * P0.2.2.1 + b1 * P1.2.2.1 + b2 * P2.2.2.1) /
          (b0 * P0.2.2.2 + b1 * P1.2.2.2 + b2 * P2.2.2.2)⟩ := by
  simp only [NurbsData.eval, List.length_cons, List.length_nil]
  norm_num [Finset.sum_range_succ, List.getD, h0, h1, h2]

theorem basis_at_zero :
    bsplineBasis [0, 0, 0, 1, 1, 1] 2 0 0 = 1 ∧ bsplineBasis [0, 0, 0, 1, 1, 1] 2 1 0 = 0 ∧
      bsplineBasis [0, 0, 0, 1, 1, 1] 2 2 0 = 0 := by
  refine ⟨?_, ?_, ?_⟩ <;> norm_num [bsplineBasis, List.getD]

theorem basis_at_one :
    bsplineBasis [0, 0, 0, 1, 1, 1] 2 0 1 = 0 ∧ bsplineBasis [0, 0, 0, 1, 1, 1] 2 1 1 = 0 ∧
      bsplineBasis [0, 0, 0, 1, 1, 1] 2 2 1 = 1 := by
  refine ⟨?_, ?_, ?_⟩ <;> norm_num [bsplineBasis, List.getD]

theorem basis_at_half :
    bsplineBasis [0, 0, 0, 1, 1, 1] 2 0 (1 / 2) = 1 / 4 ∧
      bsplineBasis [0, 0, 0, 1, 1, 1] 2 1 (1 / 2) = 1 / 2 ∧
      bsplineBasis [0, 0, 0, 1, 1, 1] 2 2 (1 / 2) = 1 / 4 := by
  refine ⟨?_, ?_, ?_⟩ <;> norm_num [bsplineBasis, List.getD]

/-- C1: for an arc of sweep `π/2` (any center, radius, start angle), the
rational curve built by `arc_to_nurbs` (one 90-degree segment, middle control
point at `radius / w` along the bisector with weight `w = cos(|segment|/2)`)
evaluates at parameter 0 to the lifted `start()`, at 1 to the lifted `end()`,
and at `0.5` to within `1e-6` of the lifted analytic `point_at(0.5)` (here
exactly). -/
theorem C1_arc_to_nurbs_fidelity (cx cy r θ : ℝ) (hr : 0 < r) :
    ∃ nd : NurbsData,
      arc_to_nurbs (Plane.xy.lift_point (Arc2D.mk ⟨cx, cy⟩ r θ (Real.pi / 2)).center)
          Plane.xy.normal
          (Plane.xy.lift_point (Arc2D.start_pt ⟨⟨cx, cy⟩, r, θ, Real.pi / 2⟩))
          (Arc2D.mk ⟨cx, cy⟩ r θ (Real.pi / 2)).sweep_angle = .ok nd ∧
      nd.eval 0 = Plane.xy.lift_point (Arc2D.start_pt ⟨⟨cx, cy⟩, r, θ, Real.pi / 2⟩) ∧
      nd.eval 1 = Plane.xy.lift_point (Arc2D.end_pt ⟨⟨cx, cy⟩, r, θ, Real.pi / 2⟩) ∧
      (nd.eval (1 / 2) - Plane.xy.lift_point
        (Arc2D.point_at ⟨⟨cx, cy⟩, r, θ, Real.pi / 2⟩ (1 / 2))).magnitude ≤ 1e-6 := by
  have hs2 : Real.sqrt 2 * Real.sqrt 2 = 2 := Real.mul_self_sqrt (by norm_num)
  have hs2pos : (0:ℝ) < Real.sqrt 2 := Real.sqrt_pos.mpr (by norm_num)
  have hstart : Plane.xy.lift_point (Arc2D.start_pt ⟨⟨cx, cy⟩, r, θ, Real.pi / 2⟩) =
      ⟨cx + r * Real.cos θ, cy + r * Real.sin θ, 0⟩ := by
    rw [lift_xy]
    apply point3_ext <;> simp [Arc2D.start_pt]
  have hcenter : Plane.xy.lift_point (Arc2D.mk ⟨cx, cy⟩ r θ (Real.pi / 2)).center =
      ⟨cx, cy, 0⟩ := by
    rw [lift_xy]
  have harc := arc_to_nurbs_quarter cx cy r θ hr
  set P0 : ℝ × ℝ × ℝ × ℝ := (cx + r * Real.cos θ, cy + r * Real.sin θ, (0:ℝ), (1:ℝ)) with hP0
  set P1 : ℝ × ℝ × ℝ × ℝ :=
    ((cx + r * (Real.cos θ - Real.sin θ)) * (Real.sqrt 2 / 2),
     (cy + r * (Real.sin θ + Real.cos θ)) * (Real.sqrt 2 / 2), (0:ℝ),
     Real.sqrt 2 / 2) with hP1
  set P2 : ℝ × ℝ × ℝ × ℝ := (cx - r * Real.sin θ, cy + r * Real.cos θ, (0:ℝ), (1:ℝ)) with hP2
  refine ⟨⟨[0, 0, 0, 1, 1, 1], [P0, P1, P2]⟩, ?_, ?_, ?_, ?_⟩
  · rw [hcenter, normal_xy, hstart]
    exact harc
  · rw [eval_bezier3 P0 P1 P2 0 1 0 0 basis_at_zero.1 basis_at_zero.2.1 basis_at_zero.2.2,
      hstart]
    apply point3_ext <;> simp [hP0, hP1, hP2]
  · rw [eval_bezier3 P0 P1 P2 1 0 0 1 basis_at_one.1 basis_at_one.2.1 basis_at_one.2.2]
    rw [lift_xy]
    apply point3_ext <;>
      simp [hP0, hP1, hP2, Arc2D.end_pt, Real.cos_add_pi_div_two, Real.sin_add_pi_div_two] <;>
      ring
  · rw [eval_bezier3 P0 P1 P2 (1 / 2) (1 / 4) (1 / 2) (1 / 4)
      basis_at_half.1 basis_at_half.2.1 basis_at_half.2.2]
    have hWne : (1:ℝ) / 4 * 1 + 1 / 2 * (Real.sqrt 2 / 2) + 1 / 4 * 1 ≠ 0 := by positivity
    have hang : Arc2D.angle_at ⟨⟨cx, cy⟩, r, θ, Real.pi / 2⟩ (1 / 2) = θ + Real.pi / 4 := by
      unfold Arc2D.angle_at
      ring
    have htarget : Plane.xy.lift_point (Arc2D.point_at ⟨⟨cx, cy⟩, r, θ, Real.pi / 2⟩ (1 / 2)) =
        ⟨cx + r * (Real.cos θ * (Real.sqrt 2 / 2) - Real.sin θ * (Real.sqrt 2 / 2)),
         cy + r * (Real.sin θ * (Real.sqrt 2 / 2) + Real.cos θ * (Real.sqrt 2 / 2)), 0⟩ := by
      rw [lift_xy]
      apply point3_ext
      · show (Arc2D.point_at ⟨⟨cx, cy⟩, r, θ, Real.pi / 2⟩ (1 / 2)).x =
          cx + r * (Real.cos θ * (Real.sqrt 2 / 2) - Real.sin θ * (Real.sqrt 2 / 2))
        simp only [Arc2D.point_at]
        rw [hang, Real.cos_add, Real.cos_pi_div_four, Real.sin_pi_div_four]
      · show (Arc2D.point_at ⟨⟨cx, cy⟩, r, θ, Real.pi / 2⟩ (1 / 2)).y =
          cy + r * (Real.sin θ * (Real.sqrt 2 / 2) + Real.cos θ * (Real.sqrt 2 / 2))
        simp only [Arc2D.point_at]
        rw [hang, Real.sin_add, Real.cos_pi_div_four, Real.sin_pi_div_four]
      · rfl
    have hkey1 : (Point3.mk
        ((1 / 4 * P0.1 + 1 / 2 * P1.1 + 1 / 4 * P2.1) /
          (1 / 4 * P0.2.2.2 + 1 / 2 * P1.2.2.2 + 1 / 4 * P2.2.2.2))
        ((1 / 4 * P0.2.1 + 1 / 2 * P1.2.1 + 1 / 4 * P2.2.1) /
          (1 / 4 * P0.2.2.2 + 1 / 2 * P1.2.2.2 + 1 / 4 * P2.2.2.2))
        ((1 / 4 * P0.2.2.1 + 1 / 2 * P1.2.2.1 + 1 / 4 * P2.2.2.1) /
          (1 / 4 * P0.2.2.2 + 1 / 2 * P1.2.2.2 + 1 / 4 * P2.2.2.2))) =
        ⟨cx + r * (Real.cos θ * (Real.sqrt 2 / 2) - Real.sin θ * (Real.sqrt 2 / 2)),
         cy + r * (Real.sin θ * (Real.sqrt 2 / 2) + Real.cos θ * (Real.sqrt 2 / 2)), 0⟩ := by
      apply point3_ext
      · show (1 / 4 * P0.1 + 1 / 2 * P1.1 + 1 / 4 * P2.1) /
            (1 / 4 * P0.2.2.2 + 1 / 2 * P1.2.2.2 + 1 / 4 * P2.2.2.2) =
          cx + r * (Real.cos θ * (Real.sqrt 2 / 2) - Real.sin θ * (Real.sqrt 2 / 2))
        simp only [hP0, hP1, hP2]
        rw [div_eq_iff hWne]
        ring_nf
        rw [Real.sq_sqrt (show (0:ℝ) ≤ 2 by norm_num)]
        ring
      · show (1 / 4 * P0.2.1 + 1 / 2 * P1.2.1 + 1 / 4 * P2.2.1) /
            (1 / 4 * P0.2.2.2 + 1 / 2 * P1.2.2.2 + 1 / 4 * P2.2.2.2) =
          cy + r * (Real.sin θ * (Real.sqrt 2 / 2) + Real.cos θ * (Real.sqrt 2 / 2))
        simp only [hP0, hP1, hP2]
        rw [div_eq_iff hWne]
        ring_nf
        rw [Real.sq_sqrt (show (0:ℝ) ≤ 2 by norm_num)]
        ring
      · show (1 / 4 * P0.2.2.1 + 1 / 2 * P1.2.2.1 + 1 / 4 * P2.2.2.1) /
            (1 / 4 * P0.2.2.2 + 1 / 2 * P1.2.2.2 + 1 / 4 * P2.2.2.2) = 0
        simp only [hP0, hP1, hP2]
        rw [div_eq_iff hWne]
        ring
    rw [hkey1.trans htarget.symm, magnitude3_sub_of_eq rfl]
    norm_num

/-- Witness for C1: the unit quarter-circle at the origin with start angle 0. -/
theorem C1_witness :
    (0:ℝ) < 1 ∧
    ∃ nd : NurbsData,
      arc_to_nurbs (Plane.xy.lift_point (Arc2D.mk ⟨0, 0⟩ 1 0 (Real.pi / 2)).center)
          Plane.xy.normal
          (Plane.xy.lift_point (Arc2D.start_pt ⟨⟨0, 0⟩, 1, 0, Real.pi / 2⟩))
          (Arc2D.mk ⟨0, 0⟩ 1 0 (Real.pi / 2)).sweep_angle = .ok nd ∧
      nd.eval 0 = Plane.xy.lift_point (Arc2D.start_pt ⟨⟨0, 0⟩, 1, 0, Real.pi / 2⟩) ∧
      nd.eval 1 = Plane.xy.lift_point (Arc2D.end_pt ⟨⟨0, 0⟩, 1, 0, Real.pi / 2⟩) ∧
      (nd.eval (1 / 2) - Plane.xy.lift_point
        (Arc2D.point_at ⟨⟨0, 0⟩, 1, 0, Real.pi / 2⟩ (1 / 2))).magnitude ≤ 1e-6 :=
  ⟨by norm_num, C1_arc_to_nurbs_fidelity 0 0 1 0 (by norm_num)⟩

end TruckPG
